import Mathlib

/-!
# Verification of the S2 cell-identifier core (Primary and Compact encodings)

Shallow embedding of `src/s2/s2cell_id_v1.h` (the Primary, curve-position
encoding, C++ namespace `s2v1`) and `src/s2/s2cell_id.h` (the Compact,
face+path encoding, class `S2CellId`, embedded here as `S2CellIdV2`).

64-bit unsigned values are modelled as `Nat`, with reductions `% 2 ^ 64`
exactly where the C++ arithmetic can wrap.  Bit operations use Lean's
`&&&`, `|||`, `>>>`, `<<<` on `Nat`, which agree with the C++ operators on
values below `2 ^ 64`.
-/

set_option maxRecDepth 10000

/-- Two's-complement negation `~x + 1` on `uint64`. -/
def neg64 (x : Nat) : Nat := (2 ^ 64 - x % 2 ^ 64) % 2 ^ 64

/-- Bitwise complement `~x` on `uint64`. -/
def not64 (x : Nat) : Nat := 2 ^ 64 - 1 - x % 2 ^ 64

/-- `uint64` addition (wraps modulo `2 ^ 64`). -/
def add64 (a b : Nat) : Nat := (a + b) % 2 ^ 64

/-- `uint64` subtraction (wraps modulo `2 ^ 64`). -/
def sub64 (a b : Nat) : Nat := (a % 2 ^ 64 + (2 ^ 64 - b % 2 ^ 64)) % 2 ^ 64

namespace s2v1

/-- `s2v1::S2CellId::kMaxLevel` (= `S2::kMaxCellLevel` = 30). -/
def kMaxLevel : Nat := 30

/-- `s2v1::S2CellId::kPosBits` = `2 * kMaxLevel + 1` = 61. -/
def kPosBits : Nat := 2 * kMaxLevel + 1

/-- `s2v1::S2CellId::kNumFaces` = 6. -/
def kNumFaces : Nat := 6

/-- `s2v1::S2CellId::lsb()`: `id_ & (~id_ + 1)`, the lowest set bit. -/
def lsb (id : Nat) : Nat := id &&& neg64 id

/-- `s2v1::S2CellId::lsb_for_level(level)`: `1 << (2 * (kMaxLevel - level))`. -/
def lsb_for_level (level : Nat) : Nat := 1 <<< (2 * (kMaxLevel - level))

/-- `s2v1::S2CellId::face()`: `id_ >> kPosBits`. -/
def face (id : Nat) : Nat := id >>> kPosBits

/-- Fuel-driven count of trailing zero bits; `ctzGo 64` is
`absl::countr_zero` on a `uint64` (64 for input 0). -/
def ctzGo : Nat → Nat → Nat
  | 0, _ => 0
  | fuel + 1, id => if id % 2 = 1 then 0 else 1 + ctzGo fuel (id / 2)

/-- `absl::countr_zero(id)` on `uint64`. -/
def countr_zero (id : Nat) : Nat := ctzGo 64 id

/-- `s2v1::S2CellId::level()`: `kMaxLevel - countr_zero(id_) / 2`
(the C++ `>> 1` on a nonnegative int is division by 2). -/
def level (id : Nat) : Nat := kMaxLevel - countr_zero id / 2

/-- `s2v1::S2CellId::is_valid()`:
`face() < kNumFaces && (lsb() & 0x1555555555555555ULL)`. -/
def is_valid (id : Nat) : Bool :=
  decide (face id < kNumFaces) && decide (lsb id &&& 0x1555555555555555 ≠ 0)

/-- `s2v1::S2CellId::child_position(int level)`:
`(id_ >> (2 * (kMaxLevel - level) + 1)) & 3`. -/
def child_position_at (id lv : Nat) : Nat :=
  (id >>> (2 * (kMaxLevel - lv) + 1)) &&& 3

/-- `s2v1::S2CellId::child_position()`: `child_position(level())`. -/
def child_position (id : Nat) : Nat := child_position_at id (level id)

/-- `s2v1::S2CellId::parent(int level)`:
`(id_ & (~new_lsb + 1)) | new_lsb` with `new_lsb = lsb_for_level(level)`. -/
def parent_at (id lv : Nat) : Nat :=
  (id &&& neg64 (lsb_for_level lv)) ||| lsb_for_level lv

/-- `s2v1::S2CellId::parent()`:
`(id_ & (~new_lsb + 1)) | new_lsb` with `new_lsb = lsb() << 2`. -/
def parent (id : Nat) : Nat :=
  (id &&& neg64 (lsb id <<< 2)) ||| (lsb id <<< 2)

/-- `s2v1::S2CellId::child(int position)`:
`id_ + (2 * position + 1 - 4) * new_lsb` with `new_lsb = lsb() >> 2`,
the signed factor evaluated in two's complement. -/
def child (id position : Nat) : Nat :=
  add64 id (sub64 ((2 * position + 1) * (lsb id >>> 2)) (4 * (lsb id >>> 2)))

/-- `s2v1::S2CellId::FromFace(face)`:
`(face << kPosBits) + lsb_for_level(0)`. -/
def FromFace (f : Nat) : Nat := (f <<< kPosBits) + lsb_for_level 0

/-- `s2v1::S2CellId::FromFacePosLevel(face, pos, level)`:
`S2CellId((face << kPosBits) + (pos | 1)).parent(level)`. -/
def FromFacePosLevel (f pos lv : Nat) : Nat :=
  parent_at ((f <<< kPosBits) + (pos ||| 1)) lv

/-- `s2v1::S2CellId::range_min()`: `id_ - (lsb() - 1)` on `uint64`. -/
def range_min (id : Nat) : Nat := sub64 id (sub64 (lsb id) 1)

/-- `s2v1::S2CellId::range_max()`: `id_ + (lsb() - 1)` on `uint64`. -/
def range_max (id : Nat) : Nat := add64 id (sub64 (lsb id) 1)

/-- `s2v1::S2CellId::contains(other)`:
`other >= range_min() && other <= range_max()` (ids compare by raw value). -/
def contains (a b : Nat) : Bool :=
  decide (range_min a ≤ b) && decide (b ≤ range_max a)

/-- `s2v1::S2CellId::Sentinel()`: `~uint64{0}`. -/
def Sentinel : Nat := 2 ^ 64 - 1

/-- Canonical form of a Primary id of face `f`, level `k`, and curve
position bits `a` above the marker bit: the marker (lowest set) bit sits
at position `2 * (kMaxLevel - k)`.  Derived vocabulary for the proofs;
`valid_iff_enc` below shows it characterises `is_valid`. -/
def enc (f k a : Nat) : Nat :=
  f * 2 ^ 61 + a * 2 ^ (2 * (30 - k) + 1) + 2 ^ (2 * (30 - k))

end s2v1

namespace S2CellIdV2

/-- `S2CellId::kFaceBits` = 3. -/
def kFaceBits : Nat := 3

/-- `S2CellId::kLevelBits` = 5. -/
def kLevelBits : Nat := 5

/-- `S2CellId::kMaxLevel` = 28. -/
def kMaxLevel : Nat := 28

/-- `S2CellId::kPathBits` = `64 - kFaceBits - kLevelBits` = 56. -/
def kPathBits : Nat := 64 - kFaceBits - kLevelBits

/-- `S2CellId::kLevelMask` = `(1 << kLevelBits) - 1` = 31. -/
def kLevelMask : Nat := (1 <<< kLevelBits) - 1

/-- The special bit pattern `1 << (kLevelBits + kPathBits - 1)` (= `2 ^ 60`)
marking the valid face-0 level-0 root cell, whose natural encoding would
collide with the invalid value 0. -/
def rootMarker : Nat := 1 <<< (kLevelBits + kPathBits - 1)

/-- `S2CellId::face()`. -/
def face (n : Nat) : Nat :=
  if n = rootMarker then 0 else n >>> (64 - kFaceBits)

/-- `S2CellId::level()`. -/
def level (n : Nat) : Nat :=
  if n = rootMarker then 0 else n &&& kLevelMask

/-- `S2CellId::path()`. -/
def path (n : Nat) : Nat :=
  if level n = 0 then 0
  else
    let raw_path := (n >>> kLevelBits) &&& ((1 <<< kPathBits) - 1)
    if 0 < level n ∧ level n ≤ kMaxLevel then
      raw_path &&& ((1 <<< (level n * 2)) - 1)
    else raw_path

/-- `S2CellId::is_valid()`. -/
def is_valid (n : Nat) : Bool :=
  if n = 0 then false
  else
    let f := n >>> (64 - kFaceBits)
    let l := n &&& kLevelMask
    if l = 0 ∧ f = 0 ∧ n = rootMarker then true
    else if 6 ≤ f then false
    else if kMaxLevel < l then false
    else if l = 0 then true
    else
      let current_path := (n >>> kLevelBits) &&& ((1 <<< kPathBits) - 1)
      let used_bits := l * 2
      if used_bits < kPathBits then
        decide (current_path &&& not64 ((1 <<< used_bits) - 1) = 0)
      else true

/-- `S2CellId::parent()`. -/
def parent (n : Nat) : Nat :=
  if !is_valid n then 0
  else if level n = 0 then 0
  else
    let parent_level := level n - 1
    let parent_path := path n >>> 2
    let parent_id :=
      (face n <<< (64 - kFaceBits)) ||| (parent_path <<< kLevelBits) |||
        parent_level
    if parent_id = 0 then rootMarker else parent_id

/-- `S2CellId::child(int position)` (`position` is a nonnegative int here;
the C++ also rejects negative positions). -/
def child (n position : Nat) : Nat :=
  if !is_valid n then 0
  else if 4 ≤ position then 0
  else if kMaxLevel ≤ level n then 0
  else
    let child_level := level n + 1
    let child_path := (path n <<< 2) ||| position
    (face n <<< (64 - kFaceBits)) ||| (child_path <<< kLevelBits) |||
      child_level

/-- `S2CellId::child_position()` (returns -1 on a root or invalid id). -/
def child_position (n : Nat) : Int :=
  if !is_valid n then -1
  else if level n = 0 then -1
  else ((path n &&& 3 : Nat) : Int)

/-- The `while (current.level() > 0)` loop of
`S2CellId::ConvertFromOldFormat`: collect `child_position()` digits
leaf-to-root and return them with the final root id.  `none` models the
early `return 0` on an out-of-range digit.  The fuel (31 at the call
site) exceeds any possible Primary level, so it never cuts the loop
short. -/
def convertLoop : Nat → Nat → Option (List Nat × Nat)
  | 0, cur => some ([], cur)
  | fuel + 1, cur =>
    if 0 < s2v1.level cur then
      let child_pos := s2v1.child_position cur
      if 4 ≤ child_pos then none
      else
        match convertLoop fuel (s2v1.parent cur) with
        | none => none
        | some (stack, root) => some (child_pos :: stack, root)
    else some ([], cur)

/-- The packing loop of `S2CellId::ConvertFromOldFormat`:
`for (i = size-1; i >= 0; --i) path = (path << 2) | stack[i]`. -/
def pack (stack : List Nat) : Nat :=
  stack.foldr (fun d p => (p <<< 2) ||| d) 0

/-- `S2CellId::ConvertFromOldFormat(old_id)`. -/
def ConvertFromOldFormat (old_id : Nat) : Nat :=
  if !s2v1.is_valid old_id then 0
  else
    let f := s2v1.face old_id
    let lv := s2v1.level old_id
    if kMaxLevel < lv then 0
    else if 6 ≤ f then 0
    else if lv = 0 then
      let result := f <<< (64 - kFaceBits)
      if result = 0 then rootMarker else result
    else
      match convertLoop 31 old_id with
      | none => 0
      | some (stack, root) =>
        if s2v1.face root ≠ f then 0
        else (f <<< (64 - kFaceBits)) ||| (pack stack <<< kLevelBits) ||| lv

/-- The `for (int i = 0; i < level; ++i)` loop of
`S2CellId::ConvertToOldFormat`, counted down by the remaining steps `r`
(the loop index is `i = lv - r`): each step reads the two-bit digit
`(path >> (2 * (level - 1 - i))) & 3` and descends via `child`;
`none` models the `return None()` on an invalid intermediate. -/
def toOldLoop (p lv : Nat) : Nat → Nat → Option Nat
  | 0, result => some result
  | r + 1, result =>
    let child_pos := (p >>> (2 * r)) &&& 3
    if 4 ≤ child_pos then none
    else
      let next := s2v1.child result child_pos
      if !s2v1.is_valid next then none
      else toOldLoop p lv r next

/-- `S2CellId::ConvertToOldFormat(new_id)`. -/
def ConvertToOldFormat (new_id : Nat) : Nat :=
  if new_id = 0 then 0
  else if new_id = rootMarker then s2v1.FromFace 0
  else
    let f := new_id >>> (64 - kFaceBits)
    let lv := new_id &&& kLevelMask
    if 6 ≤ f then 0
    else if kMaxLevel < lv then 0
    else if lv = 0 then s2v1.FromFace f
    else
      let p := (new_id >>> kLevelBits) &&& ((1 <<< kPathBits) - 1)
      match toOldLoop p lv lv (s2v1.FromFace f) with
      | none => 0
      | some r => r

/-- `S2CellId::FromFaceLevel(face, level)` (arguments are nonnegative ints
here; the C++ also rejects negative arguments). -/
def FromFaceLevel (f lv : Nat) : Nat :=
  if 5 < f ∨ kMaxLevel < lv then 0
  else if lv = 0 then
    let id := (f <<< (64 - kFaceBits)) ||| lv
    if id = 0 then rootMarker else id
  else
    let old_id := s2v1.FromFacePosLevel f 0 lv
    if !s2v1.is_valid old_id then 0
    else ConvertFromOldFormat old_id

/-- `S2CellId::FromFace(face)`: converts `OriginalS2CellId::FromFace`. -/
def FromFace (f : Nat) : Nat := ConvertFromOldFormat (s2v1.FromFace f)

/-- `S2CellId::FromToken(token)` as a function of the already-parsed
Primary id `old_id = OriginalS2CellId::FromToken(token)` (the v1 token
parser itself is external to the embedded core): invalid input yields
`None()`, a too-deep input is truncated to `parent(kMaxLevel)` before
conversion. -/
def FromTokenGivenOld (old_id : Nat) : Nat :=
  if !s2v1.is_valid old_id then 0
  else if kMaxLevel < s2v1.level old_id then
    ConvertFromOldFormat (s2v1.parent_at old_id kMaxLevel)
  else ConvertFromOldFormat old_id

/-- `S2CellId::operator<`: delegates to the Primary comparison
`ToOldFormat() < other.ToOldFormat()` (raw Primary values). -/
def lt (x y : Nat) : Bool :=
  decide (ConvertToOldFormat x < ConvertToOldFormat y)

/-- The digit-emitting loop of `S2CellId::ToString`:
characters `'0' + ((path >> (2 * i)) & 3)` for `i = l - 1` down to `0`. -/
def toStringAux (p : Nat) : Nat → List Char
  | 0 => []
  | i + 1 => Char.ofNat (48 + ((p >>> (2 * i)) &&& 3)) :: toStringAux p i

/-- `S2CellId::ToString()`. -/
def ToString (n : Nat) : String :=
  if !is_valid n then "INVALID"
  else
    let f := face n
    let l := level n
    if l = 0 then toString f
    else toString f ++ "/" ++ String.mk (toStringAux (path n) l)

/-- Characters `std::stoi` (and `isspace`) skip before the number. -/
def isSpaceChar (c : Char) : Bool :=
  c = ' ' || c = '\t' || c = '\n' || c = '\x0b' || c = '\x0c' || c = '\r'

/-- Modelled from the spec of `std::stoi` (base 10), which is external
library code: skip leading whitespace, accept an optional sign, then
require at least one decimal digit; trailing characters are ignored.
`none` models a thrown `invalid_argument`/`out_of_range` exception. -/
def stoi (s : List Char) : Option Int :=
  let afterSpace := s.dropWhile isSpaceChar
  let signed : Bool × List Char :=
    match afterSpace with
    | '-' :: rest => (true, rest)
    | '+' :: rest => (false, rest)
    | rest => (false, rest)
  let ds := signed.2.takeWhile Char.isDigit
  if ds.isEmpty then none
  else
    let v : Nat := ds.foldl (fun a c => a * 10 + (c.toNat - 48)) 0
    if signed.1 then
      if 2 ^ 31 < v then none else some (-(v : Int))
    else if 2 ^ 31 - 1 < v then none else some (v : Int)

/-- The per-character loop of `S2CellId::FromString`: reject characters
outside `'0'..'3'`, otherwise `path = (path << 2) | (c - '0')`. -/
def parsePath : List Char → Nat → Option Nat
  | [], acc => some acc
  | c :: rest, acc =>
    if c < '0' ∨ '3' < c then none
    else parsePath rest ((acc <<< 2) ||| (c.toNat - 48))

/-- `S2CellId::FromString(str)` on the character list of the string. -/
def fromStringList (cs : List Char) : Nat :=
  if cs.isEmpty then 0
  else
    let slash_pos := cs.findIdx? (· = '/')
    let face_str := match slash_pos with | none => cs | some i => cs.take i
    match stoi face_str with
    | none => 0
    | some fi =>
      if fi < 0 ∨ 5 < fi then 0
      else
        let f := fi.toNat
        match slash_pos with
        | none => FromFaceLevel f 0
        | some i =>
          let path_str := cs.drop (i + 1)
          let lv := path_str.length
          if lv = 0 then FromFaceLevel f 0
          else if kMaxLevel < lv then 0
          else
            match parsePath path_str 0 with
            | none => 0
            | some p =>
              (f <<< (64 - kFaceBits)) ||| (p <<< kLevelBits) ||| lv

/-- `S2CellId::FromString(str)`. -/
def FromString (s : String) : Nat := fromStringList s.toList

/-- The `while (current.level() > target_level)` loop of
`S2CellId::parent(int)` (small level spans); the fuel (31 at the call
site) exceeds any possible level, so it never cuts the loop short. -/
def parentLoop : Nat → Nat → Nat → Nat
  | 0, n, _ => n
  | fuel + 1, n, t => if t < level n then parentLoop fuel (parent n) t else n

/-- `S2CellId::parent(int target_level)`; the target level is a C++ `int`
and may be negative. -/
def parentAt (n : Nat) (target_level : Int) : Nat :=
  if target_level < 0 ∨ (kMaxLevel : Int) < target_level then 0
  else if (level n : Int) ≤ target_level then n
  else if 5 < (level n : Int) - target_level then
    ConvertFromOldFormat (s2v1.parent_at (ConvertToOldFormat n) target_level.toNat)
  else parentLoop 31 n target_level.toNat

/-- Canonical form of a valid Compact id of face `f`, level `k`, path
digits `a` (root-to-leaf, two bits per level).  Derived vocabulary for
the proofs. -/
def enc (f k a : Nat) : Nat :=
  if k = 0 then (if f = 0 then rootMarker else f * 2 ^ 61)
  else f * 2 ^ 61 + a * 2 ^ 5 + k

/-- Digits of `a` base 4, least significant first, padded to length `k`:
the stack collected by `convertLoop`. -/
def digitList : Nat → Nat → List Nat
  | _, 0 => []
  | a, k + 1 => a % 4 :: digitList (a / 4) k

end S2CellIdV2

/-! ## Generic 64-bit arithmetic lemmas -/

theorem shiftLeft_mul (x j : Nat) : x <<< j = x * 2 ^ j := Nat.shiftLeft_eq x j

theorem shiftRight_div (x j : Nat) : x >>> j = x / 2 ^ j :=
  Nat.shiftRight_eq_div_pow x j
/-- Bits of the mask `2 ^ 64 - 2 ^ j` (the two's complement `-2^j`):
exactly positions `j .. 63`. -/
theorem testBit_highmask {j : Nat} (hj : j ≤ 64) (i : Nat) :
    Nat.testBit (2 ^ 64 - 2 ^ j) i = (decide (j ≤ i) && decide (i < 64)) := by
  have h1 : (2 : Nat) ^ j - 1 < 2 ^ 64 :=
    lt_of_lt_of_le (Nat.sub_lt (Nat.two_pow_pos j) one_pos)
      (Nat.pow_le_pow_right (by norm_num) hj)
  have e1 : (2 : Nat) ^ 64 - 2 ^ j = 2 ^ 64 - (2 ^ j - 1 + 1) := by
    rw [Nat.sub_add_cancel (Nat.two_pow_pos j)]
  rw [e1, Nat.testBit_two_pow_sub_succ h1, Nat.testBit_two_pow_sub_one]
  by_cases hij : i < j <;> by_cases h64 : i < 64 <;>
    simp [hij, h64, Nat.le_of_not_lt, Nat.not_le.mpr]

/-- `x & -2^j` clears the bits below position `j`. -/
theorem land_highmask {x : Nat} (hx : x < 2 ^ 64) {j : Nat} (hj : j ≤ 64) :
    x &&& (2 ^ 64 - 2 ^ j) = x / 2 ^ j * 2 ^ j := by
  apply Nat.eq_of_testBit_eq
  intro i
  rw [Nat.testBit_and, testBit_highmask hj i, Nat.mul_comm (x / 2 ^ j),
    Nat.testBit_mul_pow_two]
  rcases Nat.lt_or_ge i j with hij | hij
  · simp [Nat.not_le.mpr hij]
  · rcases Nat.lt_or_ge i 64 with h64 | h64
    · have hd : x / 2 ^ j = x >>> j := (shiftRight_div x j).symm
      rw [hd, Nat.testBit_shiftRight]
      have hji : j + (i - j) = i := by omega
      simp [hij, h64, hji]
    · have hxi : Nat.testBit x i = false :=
        Nat.testBit_lt_two_pow
          (lt_of_lt_of_le hx (Nat.pow_le_pow_right (by norm_num) h64))
      have hdiv : x / 2 ^ j < 2 ^ (i - j) := by
        apply Nat.div_lt_of_lt_mul
        calc x < 2 ^ 64 := hx
          _ ≤ 2 ^ j * 2 ^ (i - j) := by
            rw [← Nat.pow_add]
            exact Nat.pow_le_pow_right (by norm_num) (by omega)
      simp [hxi, Nat.testBit_lt_two_pow hdiv]

theorem neg64_two_pow {j : Nat} (hj : j < 64) :
    neg64 (2 ^ j) = 2 ^ 64 - 2 ^ j := by
  have h1 : (2 : Nat) ^ j < 2 ^ 64 := Nat.pow_lt_pow_right (by norm_num) hj
  have h2 : (0 : Nat) < 2 ^ j := Nat.two_pow_pos j
  unfold neg64
  rw [Nat.mod_eq_of_lt h1, Nat.mod_eq_of_lt (by omega)]

theorem not64_low_mask {j : Nat} (hj : j ≤ 64) :
    not64 (2 ^ j - 1) = 2 ^ 64 - 2 ^ j := by
  have h1 : (2 : Nat) ^ j ≤ 2 ^ 64 := Nat.pow_le_pow_right (by norm_num) hj
  have h2 : (1 : Nat) ≤ 2 ^ j := Nat.two_pow_pos j
  unfold not64
  rw [Nat.mod_eq_of_lt (by omega)]
  omega

/-- The low set bit of an odd multiple of `2 ^ e` is `2 ^ e`. -/
theorem lsb_odd_mul_pow {b e : Nat} (h : (2 * b + 1) * 2 ^ e < 2 ^ 64) :
    s2v1.lsb ((2 * b + 1) * 2 ^ e) = 2 ^ e := by
  set id := (2 * b + 1) * 2 ^ e with hid
  have hpe : (0 : Nat) < 2 ^ e := Nat.two_pow_pos e
  have hpos : 0 < id := Nat.mul_pos (by omega) hpe
  have hee : (2 : Nat) ^ e ≤ id := by
    calc (2 : Nat) ^ e = 1 * 2 ^ e := (Nat.one_mul _).symm
      _ ≤ id := Nat.mul_le_mul_right _ (by omega)
  have he64 : e < 64 := by
    by_contra hc
    exact absurd h (Nat.not_lt.mpr
      (le_trans (Nat.pow_le_pow_right (by norm_num) (by omega)) hee))
  have hneg : neg64 id = 2 ^ 64 - id := by
    unfold neg64
    rw [Nat.mod_eq_of_lt h, Nat.mod_eq_of_lt (by omega)]
  have hid1 : id - 1 = 2 ^ e * (2 * b) + (2 ^ e - 1) := by
    rw [hid]; ring_nf; omega
  have hbit_id : ∀ i, Nat.testBit id i =
      (decide (e ≤ i) && Nat.testBit (2 * b + 1) (i - e)) := by
    intro i
    rw [hid, Nat.mul_comm, Nat.testBit_mul_pow_two]
  have hbit_pred : ∀ i, Nat.testBit (id - 1) i =
      if i < e then true else Nat.testBit (2 * b) (i - e) := by
    intro i
    rw [hid1, Nat.testBit_mul_pow_two_add (2 * b) (by omega) i]
    by_cases hie : i < e
    · simp [hie, Nat.testBit_two_pow_sub_one]
    · simp [hie]
  have hbit_neg : ∀ i, Nat.testBit (2 ^ 64 - id) i =
      (decide (i < 64) && !Nat.testBit (id - 1) i) := by
    intro i
    have hsub : (2 : Nat) ^ 64 - id = 2 ^ 64 - (id - 1 + 1) := by omega
    rw [hsub, Nat.testBit_two_pow_sub_succ (by omega) i]
  unfold s2v1.lsb
  rw [hneg]
  apply Nat.eq_of_testBit_eq
  intro i
  rw [Nat.testBit_and, hbit_id i, hbit_neg i, hbit_pred i]
  rcases Nat.lt_trichotomy i e with hie | hie | hie
  · rw [Nat.testBit_two_pow_of_ne (by omega)]
    simp [Nat.not_le.mpr hie]
  · subst hie
    rw [Nat.testBit_two_pow_self]
    have hb1 : Nat.testBit (2 * b + 1) 0 = true := by
      rw [Nat.testBit_zero]; simp [Nat.mul_add_mod]
    have hb2 : Nat.testBit (2 * b) 0 = false := by
      rw [Nat.testBit_zero]; simp [Nat.mul_mod_right]
    simp [Nat.sub_self, hb1, hb2, he64]
  · rw [Nat.testBit_two_pow_of_ne (by omega)]
    rcases Nat.lt_or_ge i 64 with h64 | h64
    · have hne : ¬ i < e := by omega
      have hm : i - e = (i - e - 1) + 1 := by omega
      rw [hm, Nat.testBit_add_one, Nat.testBit_add_one, if_neg hne]
      have hb1 : (2 * b + 1) / 2 = b := by omega
      have hb2 : (2 * b) / 2 = b := by omega
      rw [hb1, hb2]
      cases htb : Nat.testBit b (i - e - 1) <;> simp [htb]
    · simp [Nat.not_lt.mpr h64]

theorem ctzGo_odd_mul_pow {e b fuel : Nat} (hf : e < fuel) :
    s2v1.ctzGo fuel ((2 * b + 1) * 2 ^ e) = e := by
  induction e generalizing fuel with
  | zero =>
    obtain ⟨f2, rfl⟩ : ∃ f2, fuel = f2 + 1 := ⟨fuel - 1, by omega⟩
    simp only [pow_zero, Nat.mul_one, s2v1.ctzGo]
    rw [if_pos (by omega)]
  | succ e ih =>
    obtain ⟨f2, rfl⟩ : ∃ f2, fuel = f2 + 1 := ⟨fuel - 1, by omega⟩
    have hx : (2 * b + 1) * 2 ^ (e + 1) = ((2 * b + 1) * 2 ^ e) * 2 := by
      rw [Nat.pow_succ]; ring
    simp only [s2v1.ctzGo, hx]
    rw [if_neg (by simp [Nat.mul_mod_left]), Nat.mul_div_cancel _ (by norm_num)]
    rw [ih (by omega)]
    omega

/-- Every nonzero natural is an odd multiple of a power of two. -/
theorem exists_odd_mul_pow : ∀ id : Nat, id ≠ 0 → ∃ b e, id = (2 * b + 1) * 2 ^ e := by
  intro id
  induction id using Nat.strong_induction_on with
  | _ id ih =>
    intro hne
    rcases Nat.even_or_odd id with he | ho
    · obtain ⟨c, hc⟩ := he
      have hc2 : id = 2 * c := by omega
      obtain ⟨b, e, hbe⟩ := ih c (by omega) (by omega)
      exact ⟨b, e + 1, by rw [hc2, hbe, Nat.pow_succ]; ring⟩
    · obtain ⟨c, hc⟩ := ho
      exact ⟨c, 0, by simp [hc]⟩

/-- Bits of the validity mask `0x1555555555555555`: the even positions
up to 60. -/
theorem testBit_validMask (m : Nat) :
    Nat.testBit 0x1555555555555555 m = (decide (m % 2 = 0) && decide (m ≤ 60)) := by
  rcases Nat.lt_or_ge m 61 with h | h
  · exact (by decide : ∀ mm : Fin 61, Nat.testBit 0x1555555555555555 mm.val =
      (decide (mm.val % 2 = 0) && decide (mm.val ≤ 60))) ⟨m, h⟩
  · have h1 : Nat.testBit 0x1555555555555555 m = false :=
      Nat.testBit_lt_two_pow
        (lt_of_lt_of_le (by norm_num) (Nat.pow_le_pow_right (by norm_num) h))
    rw [h1]
    have h2 : ¬ m ≤ 60 := by omega
    simp [h2]

theorem land_validMask_pow (e : Nat) :
    2 ^ e &&& 0x1555555555555555 =
      (if e % 2 = 0 ∧ e ≤ 60 then 2 ^ e else 0) := by
  rw [Nat.and_comm, Nat.and_two_pow, testBit_validMask]
  by_cases h1 : e % 2 = 0 <;> by_cases h2 : e ≤ 60 <;> simp [h1, h2]

theorem four_pow_eq (k : Nat) : (4 : Nat) ^ k = 2 ^ (2 * k) := by
  rw [pow_mul]; norm_num

/-! ## Structure of valid Primary identifiers -/

theorem enc_eq_odd {f k a : Nat} (hk : k ≤ 30) :
    s2v1.enc f k a = (2 * (f * 4 ^ k + a) + 1) * 2 ^ (2 * (30 - k)) := by
  unfold s2v1.enc
  have hE : a * 2 ^ (2 * (30 - k) + 1) = 2 * a * 2 ^ (2 * (30 - k)) := by
    rw [Nat.pow_succ]; ring
  have h61 : f * 2 ^ 61 = 2 * (f * 4 ^ k) * 2 ^ (2 * (30 - k)) := by
    have hp : 2 * 4 ^ k * 2 ^ (2 * (30 - k)) = 2 ^ 61 := by
      calc 2 * 4 ^ k * 2 ^ (2 * (30 - k))
          = 2 ^ 1 * 2 ^ (2 * k) * 2 ^ (2 * (30 - k)) := by
            rw [pow_one, four_pow_eq]
        _ = 2 ^ (1 + 2 * k + 2 * (30 - k)) := by rw [← pow_add, ← pow_add]
        _ = 2 ^ 61 := by congr 1; omega
    calc f * 2 ^ 61 = f * (2 * 4 ^ k * 2 ^ (2 * (30 - k))) := by rw [hp]
      _ = 2 * (f * 4 ^ k) * 2 ^ (2 * (30 - k)) := by ring
  rw [hE, h61]; ring

theorem enc_low_lt {k a : Nat} (hk : k ≤ 30) (ha : a < 4 ^ k) :
    a * 2 ^ (2 * (30 - k) + 1) + 2 ^ (2 * (30 - k)) < 2 ^ 61 := by
  have hY : (2 : Nat) ^ (2 * (30 - k)) < 2 ^ (2 * (30 - k) + 1) :=
    Nat.pow_lt_pow_right (by norm_num) (by omega)
  calc a * 2 ^ (2 * (30 - k) + 1) + 2 ^ (2 * (30 - k))
      < a * 2 ^ (2 * (30 - k) + 1) + 2 ^ (2 * (30 - k) + 1) :=
        Nat.add_lt_add_left hY _
    _ = (a + 1) * 2 ^ (2 * (30 - k) + 1) := by ring
    _ ≤ 4 ^ k * 2 ^ (2 * (30 - k) + 1) := Nat.mul_le_mul_right _ (by omega)
    _ = 2 ^ 61 := by
        rw [four_pow_eq, ← pow_add]; congr 1; omega

theorem enc_lt {f k a : Nat} (hf : f < 6) (hk : k ≤ 30) (ha : a < 4 ^ k) :
    s2v1.enc f k a < 6 * 2 ^ 61 := by
  have h1 := enc_low_lt hk ha
  unfold s2v1.enc
  have h2 : f * 2 ^ 61 ≤ 5 * 2 ^ 61 := Nat.mul_le_mul_right _ (by omega)
  omega

theorem enc_lt64 {f k a : Nat} (hf : f < 6) (hk : k ≤ 30) (ha : a < 4 ^ k) :
    s2v1.enc f k a < 2 ^ 64 :=
  lt_trans (enc_lt hf hk ha) (by norm_num)

theorem lsb_enc {f k a : Nat} (hf : f < 6) (hk : k ≤ 30) (ha : a < 4 ^ k) :
    s2v1.lsb (s2v1.enc f k a) = 2 ^ (2 * (30 - k)) := by
  rw [enc_eq_odd hk]
  exact lsb_odd_mul_pow (by rw [← enc_eq_odd hk]; exact enc_lt64 hf hk ha)

theorem level_enc {f k a : Nat} (hf : f < 6) (hk : k ≤ 30) (ha : a < 4 ^ k) :
    s2v1.level (s2v1.enc f k a) = k := by
  unfold s2v1.level s2v1.countr_zero s2v1.kMaxLevel
  rw [enc_eq_odd hk, ctzGo_odd_mul_pow (by omega)]
  omega

theorem face_enc {f k a : Nat} (hf : f < 6) (hk : k ≤ 30) (ha : a < 4 ^ k) :
    s2v1.face (s2v1.enc f k a) = f := by
  have hlow := enc_low_lt hk ha
  show s2v1.enc f k a >>> s2v1.kPosBits = f
  have hpb : s2v1.kPosBits = 61 := rfl
  rw [hpb, shiftRight_div]
  unfold s2v1.enc
  rw [Nat.add_assoc, Nat.mul_comm f, Nat.mul_add_div (Nat.two_pow_pos 61),
    Nat.div_eq_of_lt hlow]
  omega

theorem is_valid_enc {f k a : Nat} (hf : f < 6) (hk : k ≤ 30) (ha : a < 4 ^ k) :
    s2v1.is_valid (s2v1.enc f k a) = true := by
  unfold s2v1.is_valid
  rw [face_enc hf hk ha, lsb_enc hf hk ha, land_validMask_pow,
    if_pos (by omega : 2 * (30 - k) % 2 = 0 ∧ 2 * (30 - k) ≤ 60)]
  have : s2v1.kNumFaces = 6 := rfl
  simp [this, hf, (Nat.two_pow_pos (2 * (30 - k))).ne']

/-- Every valid Primary id (below `2 ^ 64`) has the canonical form `enc`. -/
theorem valid_enc_exists {id : Nat} (h64 : id < 2 ^ 64)
    (hv : s2v1.is_valid id = true) :
    ∃ f k a, f < 6 ∧ k ≤ 30 ∧ a < 4 ^ k ∧ id = s2v1.enc f k a := by
  have hne : id ≠ 0 := by
    intro h0
    rw [h0, (by decide : s2v1.is_valid 0 = false)] at hv
    exact Bool.false_ne_true hv
  obtain ⟨b, e, hbe⟩ := exists_odd_mul_pow id hne
  have hlsb : s2v1.lsb id = 2 ^ e := by
    rw [hbe]; exact lsb_odd_mul_pow (hbe ▸ h64)
  unfold s2v1.is_valid at hv
  simp only [Bool.and_eq_true, decide_eq_true_eq] at hv
  obtain ⟨hface, hmask⟩ := hv
  rw [hlsb, land_validMask_pow] at hmask
  by_cases hcond : e % 2 = 0 ∧ e ≤ 60
  case neg => rw [if_neg hcond] at hmask; exact absurd rfl hmask
  obtain ⟨heven, he60⟩ := hcond
  have hface6 : id / 2 ^ 61 < 6 := by
    have hp : s2v1.kPosBits = 61 := rfl
    unfold s2v1.face at hface
    rw [hp, shiftRight_div] at hface
    exact hface
  set k := 30 - e / 2 with hkdef
  have hk30 : k ≤ 30 := by omega
  have hek : 2 * (30 - k) = e := by omega
  have h2k : 60 - e = 2 * k := by omega
  set f := id / 2 ^ 61 with hfdef
  set a := id / 2 ^ (e + 1) % 2 ^ (2 * k) with hadef
  have hb : b = id / 2 ^ (e + 1) := by
    rw [hbe]
    have hsplit : (2 * b + 1) * 2 ^ e = 2 ^ (e + 1) * b + 2 ^ e := by
      rw [Nat.pow_succ]; ring
    rw [hsplit, Nat.mul_add_div (Nat.two_pow_pos (e + 1)),
      Nat.div_eq_of_lt (Nat.pow_lt_pow_right (by norm_num) (by omega))]
    omega
  have hdd : id / 2 ^ (e + 1) / 2 ^ (2 * k) = id / 2 ^ 61 := by
    rw [Nat.div_div_eq_div_mul, ← pow_add]
    congr 2
    omega
  have hsplitb : b = f * 2 ^ (2 * k) + a := by
    rw [hb, hadef, hfdef, ← hdd]
    conv_lhs => rw [← Nat.div_add_mod (id / 2 ^ (e + 1)) (2 ^ (2 * k))]
    ring
  refine ⟨f, k, a, hface6, hk30, ?_, ?_⟩
  · rw [four_pow_eq]
    exact Nat.mod_lt _ (Nat.two_pow_pos (2 * k))
  · rw [enc_eq_odd hk30, hek, hbe, hsplitb, four_pow_eq]

theorem sub64_eq {x y : Nat} (hx : x < 2 ^ 64) (hy : y ≤ x) :
    sub64 x y = x - y := by
  unfold sub64
  rw [Nat.mod_eq_of_lt hx, Nat.mod_eq_of_lt (lt_of_le_of_lt hy hx)]
  omega

theorem add64_eq {x y : Nat} (h : x + y < 2 ^ 64) : add64 x y = x + y := by
  unfold add64
  exact Nat.mod_eq_of_lt h

/-- Setting an already-cleared-or-set bit below the top summand. -/
theorem or_set_bit {M : Nat} (Q c : Nat) (hc : c ≤ 1) :
    (2 ^ (M + 1) * Q + c * 2 ^ M) ||| 2 ^ M = 2 ^ (M + 1) * Q + 2 ^ M := by
  have hlt : (2 : Nat) ^ M < 2 ^ (M + 1) :=
    Nat.pow_lt_pow_right (by norm_num) (by omega)
  interval_cases c
  · rw [Nat.zero_mul, Nat.add_zero]
    exact (Nat.mul_add_lt_is_or hlt Q).symm
  · rw [Nat.one_mul, Nat.mul_add_lt_is_or hlt Q, Nat.or_assoc, Nat.or_self]

/-- The common core of the Primary `parent` operations:
`(x & -2^M) | 2^M` rounds `x` down to a multiple of `2 ^ (M + 1)` and sets
bit `M`. -/
theorem parent_core {x M : Nat} (hx : x < 2 ^ 64) (hM : M + 1 ≤ 64) :
    (x &&& (2 ^ 64 - 2 ^ M)) ||| 2 ^ M =
      2 ^ (M + 1) * (x / 2 ^ (M + 1)) + 2 ^ M := by
  rw [land_highmask hx (by omega)]
  have h1 : x / 2 ^ (M + 1) = x / 2 ^ M / 2 := by
    rw [Nat.div_div_eq_div_mul, pow_succ]
  have hsplit : x / 2 ^ M * 2 ^ M =
      2 ^ (M + 1) * (x / 2 ^ (M + 1)) + (x / 2 ^ M % 2) * 2 ^ M := by
    rw [h1]
    calc x / 2 ^ M * 2 ^ M
        = (2 * (x / 2 ^ M / 2) + x / 2 ^ M % 2) * 2 ^ M := by
          rw [Nat.div_add_mod]
      _ = 2 ^ (M + 1) * (x / 2 ^ M / 2) + (x / 2 ^ M % 2) * 2 ^ M := by
          rw [pow_succ]; ring
  rw [hsplit, or_set_bit _ _ (by omega), h1]

theorem child_enc {f k a p : Nat} (hf : f < 6) (hk : k < 30) (ha : a < 4 ^ k)
    (hp : p < 4) :
    s2v1.child (s2v1.enc f k a) p = s2v1.enc f (k + 1) (4 * a + p) := by
  have hk30 : k ≤ 30 := le_of_lt hk
  unfold s2v1.child
  rw [lsb_enc hf hk30 ha]
  have hm : (2 : Nat) ^ (2 * (30 - k)) >>> 2 = 2 ^ (2 * (30 - (k + 1))) := by
    rw [shiftRight_div, Nat.pow_div (by omega) (by norm_num)]
    congr 1
    omega
  rw [hm]
  set m := (2 : Nat) ^ (2 * (30 - (k + 1))) with hmdef
  have hmpos : 0 < m := Nat.two_pow_pos _
  have hmle : m ≤ 2 ^ 58 := Nat.pow_le_pow_right (by norm_num) (by omega)
  have h8m : (2 : Nat) ^ (2 * (30 - k) + 1) = 8 * m := by
    rw [hmdef, show (8 : Nat) = 2 ^ 3 from rfl, ← pow_add]
    congr 1
    omega
  have h2m : (2 : Nat) ^ (2 * (30 - (k + 1)) + 1) = 2 * m := by
    rw [hmdef, pow_succ]; ring
  have h4m : (2 : Nat) ^ (2 * (30 - k)) = 4 * m := by
    rw [hmdef, show (4 : Nat) = 2 ^ 2 from rfl, ← pow_add]
    congr 1
    omega
  have henc : s2v1.enc f k a = f * 2 ^ 61 + 8 * (a * m) + 4 * m := by
    unfold s2v1.enc
    rw [h8m, h4m]; ring
  have htgt : s2v1.enc f (k + 1) (4 * a + p) =
      f * 2 ^ 61 + 8 * (a * m) + 2 * (p * m) + m := by
    unfold s2v1.enc
    rw [h2m, hmdef]; ring
  have hbound : f * 2 ^ 61 + 8 * (a * m) + 4 * m < 2 ^ 64 := by
    rw [← henc]; exact enc_lt64 hf hk30 ha
  have hbound2 : f * 2 ^ 61 + 8 * (a * m) + 2 * (p * m) + m < 2 ^ 64 := by
    rw [← htgt]
    exact enc_lt64 hf (by omega) (by rw [pow_succ]; omega)
  unfold add64 sub64
  rw [henc, htgt]
  interval_cases p <;> omega

theorem kMaxLevel_eq : s2v1.kMaxLevel = 30 := rfl

theorem parent_enc {f k a : Nat} (hf : f < 6) (hk1 : k + 1 ≤ 30)
    (ha : a < 4 ^ (k + 1)) :
    s2v1.parent (s2v1.enc f (k + 1) a) = s2v1.enc f k (a / 4) := by
  have h64 := enc_lt64 hf hk1 ha
  unfold s2v1.parent
  rw [lsb_enc hf hk1 ha]
  set E := 2 * (30 - (k + 1)) with hE
  have hsl : (2 : Nat) ^ E <<< 2 = 2 ^ (E + 2) := by
    rw [shiftLeft_mul, ← pow_add]
  rw [hsl, neg64_two_pow (by omega), parent_core h64 (by omega)]
  have hdiv : s2v1.enc f (k + 1) a / 2 ^ (E + 2 + 1) = f * 2 ^ (58 - E) + a / 4 := by
    have h61 : (2 : Nat) ^ 61 = 2 ^ (E + 3) * 2 ^ (58 - E) := by
      rw [← pow_add]; congr 1; omega
    have hdecomp : s2v1.enc f (k + 1) a =
        2 ^ (E + 3) * (f * 2 ^ (58 - E)) + (2 * a + 1) * 2 ^ E := by
      unfold s2v1.enc
      rw [← hE, h61, pow_succ]
      ring
    have hE3 : E + 2 + 1 = E + 3 := rfl
    rw [hE3, hdecomp, Nat.mul_add_div (Nat.two_pow_pos _)]
    congr 1
    rw [show (2 : Nat) ^ (E + 3) = 2 ^ E * 8 by rw [pow_add]; ring,
      Nat.mul_comm (2 * a + 1), Nat.mul_div_mul_left _ _ (Nat.two_pow_pos E)]
    omega
  rw [hdiv]
  unfold s2v1.enc
  have hkE : 2 * (30 - k) = E + 2 := by omega
  have h61 : (2 : Nat) ^ 61 = 2 ^ (E + 3) * 2 ^ (58 - E) := by
    rw [← pow_add]; congr 1; omega
  rw [hkE, h61]
  have hE31 : E + 2 + 1 = E + 3 := rfl
  rw [hE31]
  ring

theorem parent_at_enc {f k a l : Nat} (hf : f < 6) (hk : k ≤ 30) (ha : a < 4 ^ k)
    (hl : l ≤ k) :
    s2v1.parent_at (s2v1.enc f k a) l = s2v1.enc f l (a / 4 ^ (k - l)) := by
  have h64 := enc_lt64 hf hk ha
  unfold s2v1.parent_at s2v1.lsb_for_level
  rw [kMaxLevel_eq]
  set M := 2 * (30 - l) with hM
  have hsl : (1 : Nat) <<< M = 2 ^ M := by rw [shiftLeft_mul, one_mul]
  rw [hsl, neg64_two_pow (by omega), parent_core h64 (by omega)]
  have hp1 : (4 : Nat) ^ (k - l) * 2 ^ (2 * (30 - k) + 1) = 2 ^ (M + 1) := by
    rw [four_pow_eq, ← pow_add]; congr 1; omega
  have hp2 : (2 : Nat) ^ 61 = 2 ^ (M + 1) * 2 ^ (60 - M) := by
    rw [← pow_add]; congr 1; omega
  have hlow : (a % 4 ^ (k - l)) * 2 ^ (2 * (30 - k) + 1) + 2 ^ (2 * (30 - k)) <
      2 ^ (M + 1) := by
    have hr : a % 4 ^ (k - l) < 4 ^ (k - l) :=
      Nat.mod_lt _ (Nat.pos_pow_of_pos _ (by norm_num))
    calc (a % 4 ^ (k - l)) * 2 ^ (2 * (30 - k) + 1) + 2 ^ (2 * (30 - k))
        < (a % 4 ^ (k - l)) * 2 ^ (2 * (30 - k) + 1) + 2 ^ (2 * (30 - k) + 1) :=
          Nat.add_lt_add_left (Nat.pow_lt_pow_right (by norm_num) (by omega)) _
      _ = (a % 4 ^ (k - l) + 1) * 2 ^ (2 * (30 - k) + 1) := by ring
      _ ≤ 4 ^ (k - l) * 2 ^ (2 * (30 - k) + 1) := Nat.mul_le_mul_right _ (by omega)
      _ = 2 ^ (M + 1) := hp1
  have hdecomp : s2v1.enc f k a =
      2 ^ (M + 1) * (f * 2 ^ (60 - M) + a / 4 ^ (k - l)) +
        ((a % 4 ^ (k - l)) * 2 ^ (2 * (30 - k) + 1) + 2 ^ (2 * (30 - k))) := by
    unfold s2v1.enc
    conv_lhs => rw [← Nat.div_add_mod a (4 ^ (k - l))]
    rw [hp2, ← hp1]
    ring
  have hdiv : s2v1.enc f k a / 2 ^ (M + 1) =
      f * 2 ^ (60 - M) + a / 4 ^ (k - l) := by
    rw [hdecomp, Nat.mul_add_div (Nat.two_pow_pos _), Nat.div_eq_of_lt hlow,
      Nat.add_zero]
  rw [hdiv]
  unfold s2v1.enc
  rw [← hM, hp2]
  ring

theorem child_position_enc {f k a : Nat} (hf : f < 6) (hk : k ≤ 30)
    (ha : a < 4 ^ k) (hk1 : 1 ≤ k) :
    s2v1.child_position (s2v1.enc f k a) = a % 4 := by
  unfold s2v1.child_position s2v1.child_position_at
  rw [level_enc hf hk ha, kMaxLevel_eq, shiftRight_div]
  have hsplit : s2v1.enc f k a =
      2 ^ (2 * (30 - k) + 1) * (f * 4 ^ k + a) + 2 ^ (2 * (30 - k)) := by
    rw [enc_eq_odd hk, pow_succ]
    ring
  have hdiv : s2v1.enc f k a / 2 ^ (2 * (30 - k) + 1) = f * 4 ^ k + a := by
    rw [hsplit, Nat.mul_add_div (Nat.two_pow_pos _),
      Nat.div_eq_of_lt (Nat.pow_lt_pow_right (by norm_num) (by omega)),
      Nat.add_zero]
  rw [hdiv, show (3 : Nat) = 2 ^ 2 - 1 from rfl,
    Nat.and_pow_two_sub_one_eq_mod]
  have hk4 : (4 : Nat) ^ k = 4 ^ (k - 1) * 4 := by
    rw [← pow_succ]; congr 1; omega
  calc (f * 4 ^ k + a) % 2 ^ 2
      = (a + f * 4 ^ (k - 1) * 4) % 4 := by rw [hk4]; ring_nf
    _ = a % 4 := Nat.add_mul_mod_self_right a _ 4

theorem range_min_enc {f k a : Nat} (hf : f < 6) (hk : k ≤ 30) (ha : a < 4 ^ k) :
    s2v1.range_min (s2v1.enc f k a) =
      s2v1.enc f k a - (2 ^ (2 * (30 - k)) - 1) := by
  have hpe : (0 : Nat) < 2 ^ (2 * (30 - k)) := Nat.two_pow_pos _
  have hl : (2 : Nat) ^ (2 * (30 - k)) ≤ s2v1.enc f k a := by
    unfold s2v1.enc
    exact Nat.le_add_left _ _
  have hx : (2 : Nat) ^ (2 * (30 - k)) < 2 ^ 64 :=
    lt_of_le_of_lt hl (enc_lt64 hf hk ha)
  unfold s2v1.range_min
  rw [lsb_enc hf hk ha, sub64_eq hx (by omega),
    sub64_eq (enc_lt64 hf hk ha) (by omega)]

theorem range_max_enc {f k a : Nat} (hf : f < 6) (hk : k ≤ 30) (ha : a < 4 ^ k) :
    s2v1.range_max (s2v1.enc f k a) =
      s2v1.enc f k a + (2 ^ (2 * (30 - k)) - 1) := by
  have hpe : (0 : Nat) < 2 ^ (2 * (30 - k)) := Nat.two_pow_pos _
  have hle : (2 : Nat) ^ (2 * (30 - k)) ≤ 2 ^ 60 :=
    Nat.pow_le_pow_right (by norm_num) (by omega)
  have h6 := enc_lt hf hk ha
  unfold s2v1.range_max
  rw [lsb_enc hf hk ha,
    sub64_eq (lt_of_le_of_lt hle (by norm_num)) (by omega),
    add64_eq (by omega)]

theorem FromFace_enc (f : Nat) : s2v1.FromFace f = s2v1.enc f 0 0 := by
  unfold s2v1.FromFace s2v1.lsb_for_level s2v1.kPosBits s2v1.kMaxLevel s2v1.enc
  rw [shiftLeft_mul, shiftLeft_mul]
  norm_num

theorem FromFacePosLevel_enc {f lv : Nat} (hf : f < 6) (hlv : lv ≤ 30) :
    s2v1.FromFacePosLevel f 0 lv = s2v1.enc f lv 0 := by
  unfold s2v1.FromFacePosLevel
  have hid : (f <<< s2v1.kPosBits) + ((0 : Nat) ||| 1) = s2v1.enc f 30 0 := by
    rw [Nat.zero_or, shiftLeft_mul]
    unfold s2v1.enc s2v1.kPosBits s2v1.kMaxLevel
    norm_num
  rw [hid, parent_at_enc hf (by norm_num) (Nat.pos_pow_of_pos _ (by norm_num)) hlv,
    Nat.zero_div]

/-! ## Structure of Compact identifiers -/

theorem rootMarker_eq : S2CellIdV2.rootMarker = 2 ^ 60 := rfl

theorem faceShift_eq : 64 - S2CellIdV2.kFaceBits = 61 := rfl

theorem levelBits_eq : S2CellIdV2.kLevelBits = 5 := rfl

theorem levelMask_eq : S2CellIdV2.kLevelMask = 31 := rfl

theorem pathMask_eq : (1 <<< S2CellIdV2.kPathBits) - 1 = 2 ^ 56 - 1 := rfl

theorem v2MaxLevel_eq : S2CellIdV2.kMaxLevel = 28 := rfl

theorem land31_mod (x : Nat) : x &&& 31 = x % 32 := by
  rw [show (31 : Nat) = 2 ^ 5 - 1 from rfl, Nat.and_pow_two_sub_one_eq_mod]

theorem land_pathMask_mod (x : Nat) : x &&& (2 ^ 56 - 1) = x % 2 ^ 56 :=
  Nat.and_pow_two_sub_one_eq_mod x 56

/-- Any 64-bit value splits into the Compact face / raw-path / level fields. -/
theorem v2_fields (f p l : Nat) (hf : f < 8) (hp : p < 2 ^ 56) (hl : l < 32) :
    (f * 2 ^ 61 + p * 2 ^ 5 + l) >>> 61 = f ∧
    (f * 2 ^ 61 + p * 2 ^ 5 + l) &&& 31 = l ∧
    ((f * 2 ^ 61 + p * 2 ^ 5 + l) >>> 5) &&& (2 ^ 56 - 1) = p := by
  refine ⟨?_, ?_, ?_⟩
  · rw [shiftRight_div]; omega
  · rw [land31_mod]; omega
  · rw [shiftRight_div, land_pathMask_mod]; omega

/-- Characterisation of `S2CellIdV2.is_valid` in terms of the three
fields. -/
theorem is_validV2_iff {n : Nat} (h64 : n < 2 ^ 64) :
    S2CellIdV2.is_valid n = true ↔
      (n = S2CellIdV2.rootMarker ∨
       (n ≠ 0 ∧ n >>> 61 < 6 ∧
        (n &&& 31 = 0 ∨
         (1 ≤ n &&& 31 ∧ n &&& 31 ≤ 28 ∧
          (n >>> 5) &&& (2 ^ 56 - 1) < 2 ^ (2 * (n &&& 31)))))) := by
  unfold S2CellIdV2.is_valid
  rw [faceShift_eq, levelMask_eq, pathMask_eq, levelBits_eq, v2MaxLevel_eq]
  set f := n >>> 61 with hfdef
  set l := n &&& 31 with hldef
  set raw := (n >>> 5) &&& (2 ^ 56 - 1) with hrdef
  have hraw56 : raw < 2 ^ 56 := by
    rw [hrdef, land_pathMask_mod]
    exact Nat.mod_lt _ (by norm_num)
  have hmarkl : S2CellIdV2.rootMarker &&& 31 = 0 := by decide
  have hmarkf : S2CellIdV2.rootMarker >>> 61 = 0 := by decide
  by_cases hn0 : n = 0
  · subst hn0
    simp only [if_pos rfl]
    constructor
    · intro hc; exact absurd hc (by simp)
    · intro hc
      rcases hc with hc | hc
      · exact absurd hc (by decide)
      · exact absurd rfl hc.1
  · rw [if_neg hn0]
    by_cases hmark : l = 0 ∧ f = 0 ∧ n = S2CellIdV2.rootMarker
    · rw [if_pos hmark]
      simp [hmark.2.2]
    · rw [if_neg hmark]
      by_cases hf6 : 6 ≤ f
      · rw [if_pos hf6]
        constructor
        · intro hc; exact absurd hc (by simp)
        · intro hc
          rcases hc with hc | hc
          · rw [hc] at hfdef
            rw [hfdef] at hf6
            rw [hmarkf] at hf6
            omega
          · omega
      · rw [if_neg hf6]
        have hnm : n ≠ S2CellIdV2.rootMarker := by
          intro hc
          exact hmark ⟨by rw [hldef, hc, hmarkl], by rw [hfdef, hc, hmarkf], hc⟩
        by_cases hl28 : 28 < l
        · rw [if_pos hl28]
          constructor
          · intro hc; exact absurd hc (by simp)
          · intro hc
            rcases hc with hc | hc
            · exact absurd hc hnm
            · rcases hc.2.2 with hz | hz
              · omega
              · omega
        · rw [if_neg hl28]
          by_cases hl0 : l = 0
          · rw [if_pos hl0]
            simp [hnm, hn0, hl0, Nat.not_le.mp hf6]
          · rw [if_neg hl0]
            simp only [show S2CellIdV2.kPathBits = 56 from rfl]
            have hl2 : l * 2 < 56 ∨ ¬ l * 2 < 56 := em _
            rcases hl2 with hl2 | hl2
            · rw [if_pos hl2]
              have hmask : not64 ((1 <<< (l * 2)) - 1) = 2 ^ 64 - 2 ^ (l * 2) := by
                rw [shiftLeft_mul, one_mul]
                exact not64_low_mask (by omega)
              rw [hmask, land_highmask (lt_of_lt_of_le hraw56 (by norm_num)) (by omega)]
              have hiff : raw / 2 ^ (l * 2) * 2 ^ (l * 2) = 0 ↔ raw < 2 ^ (2 * l) := by
                rw [Nat.mul_comm l 2]
                constructor
                · intro hc
                  have hz : raw / 2 ^ (2 * l) = 0 := by
                    rcases Nat.eq_zero_of_mul_eq_zero hc with hz | hz
                    · exact hz
                    · exact absurd hz (Nat.two_pow_pos _).ne'
                  exact (Nat.div_eq_zero_iff (Nat.two_pow_pos _)).mp hz
                · intro hc
                  rw [Nat.div_eq_of_lt hc, Nat.zero_mul]
              simp only [decide_eq_true_eq]
              rw [hiff]
              constructor
              · intro hc
                exact Or.inr ⟨hn0, by omega, Or.inr ⟨by omega, by omega, hc⟩⟩
              · intro hc
                rcases hc with hc | hc
                · exact absurd hc hnm
                · rcases hc.2.2 with hz | hz
                  · omega
                  · exact hz.2.2
            · rw [if_neg hl2]
              have hlt : raw < 2 ^ (2 * l) := by
                calc raw < 2 ^ 56 := hraw56
                  _ ≤ 2 ^ (2 * l) := Nat.pow_le_pow_right (by norm_num) (by omega)
              constructor
              · intro _; exact Or.inr ⟨hn0, by omega, Or.inr ⟨by omega, by omega, hlt⟩⟩
              · intro _; rfl

theorem path_lt_56 {k a : Nat} (hk : k ≤ 28) (ha : a < 4 ^ k) : a < 2 ^ 56 :=
  lt_of_lt_of_le ha
    (le_trans (Nat.pow_le_pow_right (by norm_num) hk) (by norm_num))

theorem or3_add {f q r : Nat} (hq : q < 2 ^ 56) (hr : r < 2 ^ 5) :
    (f <<< 61) ||| (q <<< 5) ||| r = f * 2 ^ 61 + q * 2 ^ 5 + r := by
  rw [shiftLeft_mul, shiftLeft_mul]
  have h1 : q * 2 ^ 5 < 2 ^ 61 := by omega
  calc (f * 2 ^ 61) ||| (q * 2 ^ 5) ||| r
      = ((2 ^ 61 * f) ||| (q * 2 ^ 5)) ||| r := by rw [Nat.mul_comm f]
    _ = (2 ^ 61 * f + q * 2 ^ 5) ||| r := by rw [← Nat.mul_add_lt_is_or h1 f]
    _ = (2 ^ 5 * (f * 2 ^ 56 + q)) ||| r := by congr 1; ring
    _ = 2 ^ 5 * (f * 2 ^ 56 + q) + r := (Nat.mul_add_lt_is_or hr _).symm
    _ = f * 2 ^ 61 + q * 2 ^ 5 + r := by ring

theorem encV2_eq {f k a : Nat} (hk1 : 1 ≤ k) :
    S2CellIdV2.enc f k a = f * 2 ^ 61 + a * 2 ^ 5 + k := by
  unfold S2CellIdV2.enc
  rw [if_neg (by omega)]

/-! ## Conversion-loop correctness -/

theorem convertLoop_enc {f k : Nat} (hf : f < 6) (hk : k ≤ 30) :
    ∀ {a fuel : Nat}, a < 4 ^ k → k < fuel →
    S2CellIdV2.convertLoop fuel (s2v1.enc f k a) =
      some (S2CellIdV2.digitList a k, s2v1.enc f 0 0) := by
  induction k with
  | zero =>
    intro a fuel ha hfuel
    obtain ⟨f2, rfl⟩ : ∃ f2, fuel = f2 + 1 := ⟨fuel - 1, by omega⟩
    have ha0 : a = 0 := by omega
    subst ha0
    unfold S2CellIdV2.convertLoop
    rw [level_enc hf (by omega) (by norm_num)]
    simp [S2CellIdV2.digitList]
  | succ k ih =>
    intro a fuel ha hfuel
    obtain ⟨f2, rfl⟩ : ∃ f2, fuel = f2 + 1 := ⟨fuel - 1, by omega⟩
    have ha4 : a / 4 < 4 ^ k := by
      apply Nat.div_lt_of_lt_mul
      rw [Nat.mul_comm, ← pow_succ]
      exact ha
    unfold S2CellIdV2.convertLoop
    rw [level_enc hf (by omega) ha, if_pos (by omega),
      child_position_enc hf (by omega) ha (by omega), if_neg (by omega),
      parent_enc hf (by omega) ha, ih (by omega) ha4 (by omega)]
    rfl

theorem pack_digitList_mod : ∀ (k a : Nat),
    S2CellIdV2.pack (S2CellIdV2.digitList a k) = a % 4 ^ k := by
  intro k
  induction k with
  | zero =>
    intro a
    simp [S2CellIdV2.digitList, S2CellIdV2.pack, Nat.mod_one]
  | succ k ih =>
    intro a
    show S2CellIdV2.pack (a % 4 :: S2CellIdV2.digitList (a / 4) k) = a % 4 ^ (k + 1)
    have hcons : S2CellIdV2.pack (a % 4 :: S2CellIdV2.digitList (a / 4) k) =
        (S2CellIdV2.pack (S2CellIdV2.digitList (a / 4) k) <<< 2) ||| (a % 4) := by
      rfl
    rw [hcons, ih, shiftLeft_mul,
      Nat.mul_comm (a / 4 % 4 ^ k),
      ← Nat.mul_add_lt_is_or (by omega : a % 4 < 2 ^ 2) _]
    rw [show (2 : Nat) ^ 2 = 4 from rfl, pow_succ', Nat.mod_mul]
    ring

theorem pack_digitList {k a : Nat} (ha : a < 4 ^ k) :
    S2CellIdV2.pack (S2CellIdV2.digitList a k) = a := by
  rw [pack_digitList_mod, Nat.mod_eq_of_lt ha]

/-- `ConvertFromOldFormat` on the canonical form of a valid Primary id of
level at most 28. -/
theorem CFOF_enc {f k a : Nat} (hf : f < 6) (hk : k ≤ 28) (ha : a < 4 ^ k) :
    S2CellIdV2.ConvertFromOldFormat (s2v1.enc f k a) = S2CellIdV2.enc f k a := by
  unfold S2CellIdV2.ConvertFromOldFormat
  rw [is_valid_enc hf (by omega) ha, face_enc hf (by omega) ha,
    level_enc hf (by omega) ha, v2MaxLevel_eq]
  simp only [Bool.not_true, Bool.false_eq_true, if_false]
  rw [if_neg (by omega), if_neg (by omega)]
  by_cases hk0 : k = 0
  · subst hk0
    rw [if_pos rfl]
    unfold S2CellIdV2.enc
    by_cases hf0 : f = 0
    · subst hf0
      simp [faceShift_eq]
    · rw [if_neg hf0]
      have hne : f <<< (64 - S2CellIdV2.kFaceBits) ≠ 0 := by
        rw [faceShift_eq, shiftLeft_mul]
        intro hc
        rcases Nat.eq_zero_of_mul_eq_zero hc with hz | hz
        · exact hf0 hz
        · exact absurd hz (by norm_num)
      rw [if_pos rfl, if_neg hne, faceShift_eq, shiftLeft_mul]
  · rw [if_neg hk0, convertLoop_enc hf (by omega) ha (by omega)]
    simp only
    rw [if_neg (by rw [face_enc hf (by omega) (by norm_num)]; simp),
      pack_digitList ha, faceShift_eq, levelBits_eq,
      or3_add (path_lt_56 hk ha) (by omega), encV2_eq (by omega)]

/-- `ConvertFromOldFormat` yields the invalid value 0 on any valid Primary
id deeper than the Compact cap. -/
theorem CFOF_deep {f k a : Nat} (hf : f < 6) (hk : k ≤ 30) (hk28 : 28 < k)
    (ha : a < 4 ^ k) :
    S2CellIdV2.ConvertFromOldFormat (s2v1.enc f k a) = 0 := by
  unfold S2CellIdV2.ConvertFromOldFormat
  rw [is_valid_enc hf hk ha, level_enc hf hk ha, v2MaxLevel_eq]
  simp only [Bool.not_true, Bool.false_eq_true, if_false]
  rw [if_pos (by omega)]

theorem toOldLoop_enc {f l a : Nat} (hf : f < 6) (hl : l ≤ 28) (ha : a < 4 ^ l) :
    ∀ r, r ≤ l →
    S2CellIdV2.toOldLoop a l r (s2v1.enc f (l - r) (a / 4 ^ r)) =
      some (s2v1.enc f l a) := by
  intro r
  induction r with
  | zero =>
    intro _
    simp [S2CellIdV2.toOldLoop, Nat.pow_zero, Nat.div_one]
  | succ r ih =>
    intro hr
    have hdivb : a / 4 ^ (r + 1) < 4 ^ (l - (r + 1)) := by
      apply Nat.div_lt_of_lt_mul
      rw [← pow_add]
      exact lt_of_lt_of_le ha (Nat.pow_le_pow_right (by norm_num) (by omega))
    have hcp : (a >>> (2 * r)) &&& 3 = a / 4 ^ r % 4 := by
      rw [shiftRight_div, show (3 : Nat) = 2 ^ 2 - 1 from rfl,
        Nat.and_pow_two_sub_one_eq_mod, four_pow_eq]
    have hstep : s2v1.child (s2v1.enc f (l - (r + 1)) (a / 4 ^ (r + 1)))
        (a / 4 ^ r % 4) = s2v1.enc f (l - r) (a / 4 ^ r) := by
      rw [child_enc hf (by omega) hdivb (by omega)]
      have h1 : a / 4 ^ (r + 1) = a / 4 ^ r / 4 := by
        rw [pow_succ, ← Nat.div_div_eq_div_mul]
      congr 1
      · omega
      · rw [h1]; omega
    have hb : a / 4 ^ r < 4 ^ (l - r) := by
      apply Nat.div_lt_of_lt_mul
      rw [← pow_add]
      exact lt_of_lt_of_le ha (Nat.pow_le_pow_right (by norm_num) (by omega))
    unfold S2CellIdV2.toOldLoop
    simp only [hcp]
    rw [if_neg (by omega : ¬ 4 ≤ a / 4 ^ r % 4)]
    simp only [hstep]
    rw [is_valid_enc hf (by omega) hb]
    simp only [Bool.not_true, Bool.false_eq_true, if_false]
    exact ih (by omega)

/-- `ConvertToOldFormat` on the canonical Compact form. -/
theorem CTOF_encV2 {f k a : Nat} (hf : f < 6) (hk : k ≤ 28) (ha : a < 4 ^ k) :
    S2CellIdV2.ConvertToOldFormat (S2CellIdV2.enc f k a) = s2v1.enc f k a := by
  by_cases hk0 : k = 0
  · subst hk0
    have ha0 : a = 0 := by omega
    subst ha0
    unfold S2CellIdV2.enc
    by_cases hf0 : f = 0
    · subst hf0
      rw [if_pos rfl, if_pos rfl]
      unfold S2CellIdV2.ConvertToOldFormat
      rw [if_neg (by rw [rootMarker_eq]; norm_num), if_pos rfl, FromFace_enc]
    · rw [if_pos rfl, if_neg hf0]
      have hfld := v2_fields f 0 0 (by omega) (by norm_num) (by norm_num)
      have hshape : f * 2 ^ 61 + 0 * 2 ^ 5 + 0 = f * 2 ^ 61 := by ring
      rw [hshape] at hfld
      have hne0 : f * 2 ^ 61 ≠ 0 := by intro hc; omega
      have hnem : f * 2 ^ 61 ≠ S2CellIdV2.rootMarker := by
        rw [rootMarker_eq]; intro hc; omega
      unfold S2CellIdV2.ConvertToOldFormat
      rw [if_neg hne0, if_neg hnem]
      simp only [faceShift_eq, levelMask_eq, hfld.1, hfld.2.1]
      rw [if_neg (by omega), v2MaxLevel_eq, if_neg (by omega)]
      simp only [if_true]
      exact FromFace_enc f
  · have ha56 : a < 2 ^ 56 := path_lt_56 hk ha
    rw [encV2_eq (by omega)]
    have hfld := v2_fields f a k (by omega) ha56 (by omega)
    have hne0 : f * 2 ^ 61 + a * 2 ^ 5 + k ≠ 0 := by omega
    have hnem : f * 2 ^ 61 + a * 2 ^ 5 + k ≠ S2CellIdV2.rootMarker := by
      rw [rootMarker_eq]; intro hc; omega
    unfold S2CellIdV2.ConvertToOldFormat
    rw [if_neg hne0, if_neg hnem]
    simp only [faceShift_eq, levelMask_eq, levelBits_eq, pathMask_eq,
      hfld.1, hfld.2.1, hfld.2.2]
    rw [if_neg (by omega), v2MaxLevel_eq, if_neg (by omega), if_neg hk0,
      FromFace_enc]
    have hzero : s2v1.enc f 0 0 = s2v1.enc f (k - k) (a / 4 ^ k) := by
      congr 1
      · omega
      · rw [Nat.div_eq_of_lt ha]
    rw [hzero, toOldLoop_enc hf hk ha k (le_refl k)]

theorem encV2_lt64 {f k a : Nat} (hf : f < 6) (hk : k ≤ 28) (ha : a < 4 ^ k) :
    S2CellIdV2.enc f k a < 2 ^ 64 := by
  have ha56 := path_lt_56 hk ha
  unfold S2CellIdV2.enc
  split_ifs
  · rw [rootMarker_eq]; norm_num
  · omega
  · omega

theorem encV2_ne_marker {f k a : Nat} (hk1 : 1 ≤ k) (hk : k ≤ 28)
    (ha : a < 4 ^ k) :
    S2CellIdV2.enc f k a ≠ S2CellIdV2.rootMarker := by
  have ha56 := path_lt_56 hk ha
  rw [encV2_eq hk1, rootMarker_eq]
  intro hc
  omega

theorem faceV2_enc {f k a : Nat} (hf : f < 6) (hk : k ≤ 28) (ha : a < 4 ^ k) :
    S2CellIdV2.face (S2CellIdV2.enc f k a) = f := by
  have ha56 := path_lt_56 hk ha
  by_cases hk0 : k = 0
  · subst hk0
    unfold S2CellIdV2.enc
    by_cases hf0 : f = 0
    · subst hf0
      rw [if_pos rfl, if_pos rfl]
      unfold S2CellIdV2.face
      rw [if_pos rfl]
    · rw [if_pos rfl, if_neg hf0]
      unfold S2CellIdV2.face
      rw [if_neg (by rw [rootMarker_eq]; intro hc; omega), faceShift_eq,
        shiftRight_div]
      omega
  · unfold S2CellIdV2.face
    rw [if_neg (encV2_ne_marker (by omega) hk ha), encV2_eq (by omega),
      faceShift_eq, shiftRight_div]
    omega

theorem levelV2_enc {f k a : Nat} (hf : f < 6) (hk : k ≤ 28) (ha : a < 4 ^ k) :
    S2CellIdV2.level (S2CellIdV2.enc f k a) = k := by
  have ha56 := path_lt_56 hk ha
  by_cases hk0 : k = 0
  · subst hk0
    unfold S2CellIdV2.enc
    by_cases hf0 : f = 0
    · subst hf0
      rw [if_pos rfl, if_pos rfl]
      unfold S2CellIdV2.level
      rw [if_pos rfl]
    · rw [if_pos rfl, if_neg hf0]
      unfold S2CellIdV2.level
      rw [if_neg (by rw [rootMarker_eq]; intro hc; omega), levelMask_eq,
        land31_mod]
      omega
  · unfold S2CellIdV2.level
    rw [if_neg (encV2_ne_marker (by omega) hk ha), encV2_eq (by omega),
      levelMask_eq, land31_mod]
    omega

theorem pathV2_enc {f k a : Nat} (hf : f < 6) (hk1 : 1 ≤ k) (hk : k ≤ 28)
    (ha : a < 4 ^ k) :
    S2CellIdV2.path (S2CellIdV2.enc f k a) = a := by
  have ha56 := path_lt_56 hk ha
  have ha2k : a < 2 ^ (k * 2) := by
    rw [Nat.mul_comm k 2, ← four_pow_eq]
    exact ha
  unfold S2CellIdV2.path
  rw [levelV2_enc hf hk ha]
  rw [if_neg (by omega)]
  simp only [levelBits_eq, pathMask_eq, v2MaxLevel_eq]
  rw [if_pos (by omega : 0 < k ∧ k ≤ 28)]
  rw [encV2_eq hk1]
  have hfld := v2_fields f a k (by omega) ha56 (by omega)
  rw [hfld.2.2, shiftLeft_mul, one_mul,
    Nat.and_pow_two_sub_one_of_lt_two_pow ha2k]

theorem validV2_enc {f k a : Nat} (hf : f < 6) (hk : k ≤ 28) (ha : a < 4 ^ k) :
    S2CellIdV2.is_valid (S2CellIdV2.enc f k a) = true := by
  have ha56 := path_lt_56 hk ha
  rw [is_validV2_iff (encV2_lt64 hf hk ha)]
  by_cases hk0 : k = 0
  · subst hk0
    by_cases hf0 : f = 0
    · subst hf0
      left
      unfold S2CellIdV2.enc
      rw [if_pos rfl, if_pos rfl]
    · right
      have hupd : S2CellIdV2.enc f 0 a = f * 2 ^ 61 := by
        unfold S2CellIdV2.enc
        rw [if_pos rfl, if_neg hf0]
      rw [hupd]
      have hfld := v2_fields f 0 0 (by omega) (by norm_num) (by norm_num)
      have hshape : f * 2 ^ 61 + 0 * 2 ^ 5 + 0 = f * 2 ^ 61 := by ring
      rw [hshape] at hfld
      exact ⟨by intro hc; omega, by rw [hfld.1]; omega, Or.inl hfld.2.1⟩
  · right
    rw [encV2_eq (by omega)]
    have hfld := v2_fields f a k (by omega) ha56 (by omega)
    refine ⟨by omega, by rw [hfld.1]; omega, Or.inr ⟨?_, ?_, ?_⟩⟩
    · rw [hfld.2.1]; omega
    · rw [hfld.2.1]; omega
    · rw [hfld.2.2, hfld.2.1, ← four_pow_eq]
      exact ha

theorem FFL_enc {f lv : Nat} (hf : f ≤ 5) (hlv : lv ≤ 28) :
    S2CellIdV2.FromFaceLevel f lv = S2CellIdV2.enc f lv 0 := by
  unfold S2CellIdV2.FromFaceLevel
  rw [v2MaxLevel_eq, if_neg (by omega)]
  by_cases hlv0 : lv = 0
  · subst hlv0
    rw [if_pos rfl]
    simp only [faceShift_eq, Nat.or_zero]
    by_cases hf0 : f = 0
    · subst hf0
      rw [if_pos (by rfl)]
      unfold S2CellIdV2.enc
      rw [if_pos rfl, if_pos rfl]
    · rw [if_neg (by rw [shiftLeft_mul]; intro hc; omega)]
      unfold S2CellIdV2.enc
      rw [if_pos rfl, if_neg hf0, shiftLeft_mul]
  · rw [if_neg hlv0]
    simp only [FromFacePosLevel_enc (show f < 6 by omega) (show lv ≤ 30 by omega)]
    rw [is_valid_enc (show f < 6 by omega) (show lv ≤ 30 by omega)
      (Nat.pos_pow_of_pos _ (by norm_num))]
    simp only [Bool.not_true, Bool.false_eq_true, if_false]
    exact CFOF_enc (by omega) hlv (Nat.pos_pow_of_pos _ (by norm_num))

theorem FromFaceV2_enc {f : Nat} (hf : f < 6) :
    S2CellIdV2.FromFace f = S2CellIdV2.enc f 0 0 := by
  unfold S2CellIdV2.FromFace
  rw [FromFace_enc, CFOF_enc hf (by norm_num) (by norm_num)]

/-! ## Claim theorems -/

/-- C1 counterexample: the Primary id 4 is valid with level 29 (> 28), its
depth-28 ancestor is 16, yet the round trip through the Compact conversion
yields the invalid id 0, not that ancestor. -/
theorem C1_counterexample :
    s2v1.is_valid 4 = true ∧ s2v1.level 4 = 29 ∧ s2v1.parent_at 4 28 = 16 ∧
    S2CellIdV2.ConvertToOldFormat (S2CellIdV2.ConvertFromOldFormat 4) = 0 ∧
    (0 : Nat) ≠ 16 := by
  refine ⟨by decide, by decide, by decide, by decide, by decide⟩

/-- C1 (amended): for every valid Primary id of level at most 28 the
round trip `ConvertFromOldFormat` then `ConvertToOldFormat` reproduces it
exactly; for level above 28 the round trip yields the invalid id 0 (not
the depth-28 ancestor). -/
theorem C1_round_trip (id : Nat) (h64 : id < 2 ^ 64)
    (hv : s2v1.is_valid id = true) :
    (s2v1.level id ≤ 28 →
      S2CellIdV2.ConvertToOldFormat (S2CellIdV2.ConvertFromOldFormat id) = id) ∧
    (28 < s2v1.level id →
      S2CellIdV2.ConvertToOldFormat (S2CellIdV2.ConvertFromOldFormat id) = 0) := by
  obtain ⟨f, k, a, hf, hk, ha, rfl⟩ := valid_enc_exists h64 hv
  rw [level_enc hf hk ha]
  constructor
  · intro hk28
    rw [CFOF_enc hf hk28 ha, CTOF_encV2 hf hk28 ha]
  · intro hk28
    rw [CFOF_deep hf hk hk28 ha]
    rfl

/-- C1 witness: the face-0 cell (level 0) round trips exactly. -/
theorem C1_witness :
    S2CellIdV2.ConvertToOldFormat (S2CellIdV2.ConvertFromOldFormat (2 ^ 60)) =
      2 ^ 60 :=
  (C1_round_trip (2 ^ 60) (by norm_num) (by decide)).1 (by decide)

/-- C2: on a valid Primary id deeper than the Compact cap of 28,
`ConvertFromOldFormat` returns 0 (invalid) rather than truncating, while
the caller wrapper (as in `FromToken`) truncates to `parent(28)` before
converting and therefore produces a valid Compact id. -/
theorem C2_depth_cap (id : Nat) (h64 : id < 2 ^ 64)
    (hv : s2v1.is_valid id = true) (hd : 28 < s2v1.level id) :
    S2CellIdV2.ConvertFromOldFormat id = 0 ∧
    S2CellIdV2.FromTokenGivenOld id =
      S2CellIdV2.ConvertFromOldFormat (s2v1.parent_at id 28) ∧
    S2CellIdV2.is_valid (S2CellIdV2.FromTokenGivenOld id) = true := by
  obtain ⟨f, k, a, hf, hk, ha, rfl⟩ := valid_enc_exists h64 hv
  rw [level_enc hf hk ha] at hd
  have h1 : S2CellIdV2.FromTokenGivenOld (s2v1.enc f k a) =
      S2CellIdV2.ConvertFromOldFormat (s2v1.parent_at (s2v1.enc f k a) 28) := by
    unfold S2CellIdV2.FromTokenGivenOld
    rw [is_valid_enc hf hk ha, level_enc hf hk ha, v2MaxLevel_eq]
    simp only [Bool.not_true, Bool.false_eq_true, if_false]
    rw [if_pos hd]
  refine ⟨CFOF_deep hf hk hd ha, h1, ?_⟩
  rw [h1, parent_at_enc hf hk ha (by omega)]
  have hdiv : a / 4 ^ (k - 28) < 4 ^ 28 := by
    apply Nat.div_lt_of_lt_mul
    rw [← pow_add]
    exact lt_of_lt_of_le ha (Nat.pow_le_pow_right (by norm_num) (by omega))
  rw [CFOF_enc hf (le_refl 28) hdiv]
  exact validV2_enc hf (le_refl 28) hdiv

/-- C2 witness: instantiated at the valid level-29 Primary id 4. -/
theorem C2_witness :
    S2CellIdV2.ConvertFromOldFormat 4 = 0 ∧
    S2CellIdV2.FromTokenGivenOld 4 =
      S2CellIdV2.ConvertFromOldFormat (s2v1.parent_at 4 28) ∧
    S2CellIdV2.is_valid (S2CellIdV2.FromTokenGivenOld 4) = true :=
  C2_depth_cap 4 (by norm_num) (by decide) (by decide)

/-- C3 counterexample: the Compact ids 98 (the cell `0/03`) and 33 (the
cell `0/1`) are both valid, `operator<` puts 98 before 33 (because it
compares the converted Primary values), yet the raw `new_id` values order
the other way: 33 < 98.  So `x < y` is not equivalent to
`new_id(x) < new_id(y)`. -/
theorem C3_counterexample :
    S2CellIdV2.is_valid 98 = true ∧ S2CellIdV2.is_valid 33 = true ∧
    S2CellIdV2.lt 98 33 = true ∧ (33 : Nat) < 98 := by
  refine ⟨by decide, by decide, by decide, by decide⟩

/-- C3 (amended): on canonical Compact ids, `operator<` holds exactly when
the converted Primary (old-format) raw values compare `<`; sorting with it
therefore yields ascending converted-Primary order, not ascending raw
`new_id` order. -/
theorem C3_order (f k a g l b : Nat) (hf : f < 6) (hk : k ≤ 28) (ha : a < 4 ^ k)
    (hg : g < 6) (hl : l ≤ 28) (hb : b < 4 ^ l) :
    S2CellIdV2.lt (S2CellIdV2.enc f k a) (S2CellIdV2.enc g l b) = true ↔
      s2v1.enc f k a < s2v1.enc g l b := by
  unfold S2CellIdV2.lt
  rw [CTOF_encV2 hf hk ha, CTOF_encV2 hg hl hb]
  simp

/-- C3 witness: instantiated at the counterexample pair. -/
theorem C3_witness :
    S2CellIdV2.lt (S2CellIdV2.enc 0 2 3) (S2CellIdV2.enc 0 1 1) = true ↔
      s2v1.enc 0 2 3 < s2v1.enc 0 1 1 :=
  C3_order 0 2 3 0 1 1 (by norm_num) (by norm_num) (by norm_num) (by norm_num)
    (by norm_num) (by norm_num)

/-- C5: for every valid Primary id below the maximum depth, each child's
parent is the id itself, the id contains each child, and distinct child
positions give distinct children. -/
theorem C5_children (id p q : Nat) (h64 : id < 2 ^ 64)
    (hv : s2v1.is_valid id = true) (hd : s2v1.level id < 30)
    (hp : p < 4) (hq : q < 4) :
    s2v1.parent (s2v1.child id p) = id ∧
    s2v1.contains id (s2v1.child id p) = true ∧
    (p ≠ q → s2v1.child id p ≠ s2v1.child id q) := by
  obtain ⟨f, k, a, hf, hk, ha, rfl⟩ := valid_enc_exists h64 hv
  rw [level_enc hf hk ha] at hd
  have hc : ∀ r, r < 4 → 4 * a + r < 4 ^ (k + 1) := by
    intro r hr
    rw [pow_succ]
    omega
  refine ⟨?_, ?_, ?_⟩
  · rw [child_enc hf hd ha hp, parent_enc hf (by omega) (hc p hp)]
    congr 1
    omega
  · rw [child_enc hf hd ha hp]
    unfold s2v1.contains
    rw [range_min_enc hf hk ha, range_max_enc hf hk ha]
    set m := (2 : Nat) ^ (2 * (30 - (k + 1))) with hmdef
    have hmpos : 0 < m := Nat.two_pow_pos _
    have h4m : (2 : Nat) ^ (2 * (30 - k)) = 4 * m := by
      rw [hmdef, show (4 : Nat) = 2 ^ 2 from rfl, ← pow_add]
      congr 1
      omega
    have h2m : (2 : Nat) ^ (2 * (30 - (k + 1)) + 1) = 2 * m := by
      rw [hmdef, pow_succ]; ring
    have h8m : (2 : Nat) ^ (2 * (30 - k) + 1) = 8 * m := by
      rw [hmdef, show (8 : Nat) = 2 ^ 3 from rfl, ← pow_add]
      congr 1
      omega
    have henc : s2v1.enc f k a = f * 2 ^ 61 + 8 * (a * m) + 4 * m := by
      unfold s2v1.enc
      rw [h8m, h4m]; ring
    have htgt : s2v1.enc f (k + 1) (4 * a + p) =
        f * 2 ^ 61 + 8 * (a * m) + 2 * (p * m) + m := by
      unfold s2v1.enc
      rw [h2m, ← hmdef]; ring
    rw [henc, h4m, htgt]
    simp only [Bool.and_eq_true, decide_eq_true_eq]
    constructor
    · interval_cases p <;> omega
    · interval_cases p <;> omega
  · intro hpq
    rw [child_enc hf hd ha hp, child_enc hf hd ha hq]
    intro hceq
    unfold s2v1.enc at hceq
    have hpe : (0 : Nat) < 2 ^ (2 * (30 - (k + 1)) + 1) := Nat.two_pow_pos _
    have : (4 * a + p) * 2 ^ (2 * (30 - (k + 1)) + 1) =
        (4 * a + q) * 2 ^ (2 * (30 - (k + 1)) + 1) := by omega
    have h2 : 4 * a + p = 4 * a + q := Nat.eq_of_mul_eq_mul_right hpe this
    omega

/-- C5 witness: the face-0 cell with children at positions 1 and 2. -/
theorem C5_witness :
    s2v1.parent (s2v1.child (2 ^ 60) 1) = 2 ^ 60 ∧
    s2v1.contains (2 ^ 60) (s2v1.child (2 ^ 60) 1) = true ∧
    (1 ≠ 2 → s2v1.child (2 ^ 60) 1 ≠ s2v1.child (2 ^ 60) 2) :=
  C5_children (2 ^ 60) 1 2 (by norm_num) (by decide) (by decide) (by norm_num)
    (by norm_num)

/-- C6: every valid Primary id lies between its `range_min` and
`range_max` (and the two bounds are ordered), and the Sentinel is a fixed
point of both. -/
theorem C6_range (id : Nat) (h64 : id < 2 ^ 64)
    (hv : s2v1.is_valid id = true) :
    (s2v1.range_min id ≤ id ∧ id ≤ s2v1.range_max id ∧
      s2v1.range_min id ≤ s2v1.range_max id) ∧
    s2v1.range_min s2v1.Sentinel = s2v1.Sentinel ∧
    s2v1.range_max s2v1.Sentinel = s2v1.Sentinel := by
  refine ⟨?_, by decide, by decide⟩
  obtain ⟨f, k, a, hf, hk, ha, rfl⟩ := valid_enc_exists h64 hv
  rw [range_min_enc hf hk ha, range_max_enc hf hk ha]
  have hpe : (0 : Nat) < 2 ^ (2 * (30 - k)) := Nat.two_pow_pos _
  omega

/-- C6 witness: instantiated at the face-0 cell. -/
theorem C6_witness :
    (s2v1.range_min (2 ^ 60) ≤ 2 ^ 60 ∧ 2 ^ 60 ≤ s2v1.range_max (2 ^ 60) ∧
      s2v1.range_min (2 ^ 60) ≤ s2v1.range_max (2 ^ 60)) ∧
    s2v1.range_min s2v1.Sentinel = s2v1.Sentinel ∧
    s2v1.range_max s2v1.Sentinel = s2v1.Sentinel :=
  C6_range (2 ^ 60) (by norm_num) (by decide)

/-- C10: on any valid Compact id, `parent(target_level)` returns the id
unchanged whenever `level(x) ≤ target_level ≤ 28`, and returns `None()`
(0) whenever the target level is negative or above 28; the embedded
operation is a total function of its inputs. -/
theorem C10_parent_total (n : Nat) (hv : S2CellIdV2.is_valid n = true)
    (tl : Int) :
    ((0 ≤ tl ∧ tl ≤ 28 ∧ (S2CellIdV2.level n : Int) ≤ tl) →
      S2CellIdV2.parentAt n tl = n) ∧
    ((tl < 0 ∨ 28 < tl) → S2CellIdV2.parentAt n tl = 0) := by
  unfold S2CellIdV2.parentAt
  rw [v2MaxLevel_eq]
  constructor
  · intro h
    rw [if_neg (by omega), if_pos (by omega)]
  · intro h
    rw [if_pos (by omega)]

/-- C10 witness: the face-0 root cell with target levels 5 and 29. -/
theorem C10_witness :
    S2CellIdV2.parentAt (2 ^ 60) 5 = 2 ^ 60 ∧
    S2CellIdV2.parentAt (2 ^ 60) 29 = 0 :=
  ⟨(C10_parent_total (2 ^ 60) (by decide) 5).1 (by decide),
   (C10_parent_total (2 ^ 60) (by decide) 29).2 (by decide)⟩

/-- C4 counterexample: the high path-field bit 60 used as the root marker
is not otherwise unused: `FromString "0/2000000000000000000000000000"`
produces the distinct valid Compact id `2 ^ 60 + 28` (a depth-28 cell)
which also has bit 60 set. -/
theorem C4_counterexample :
    S2CellIdV2.FromString "0/2000000000000000000000000000" = 2 ^ 60 + 28 ∧
    S2CellIdV2.is_valid (2 ^ 60 + 28) = true ∧
    Nat.testBit (2 ^ 60 + 28) 60 = true ∧
    (2 ^ 60 + 28 : Nat) ≠ S2CellIdV2.FromFaceLevel 0 0 ∧
    Nat.testBit (S2CellIdV2.FromFaceLevel 0 0) 60 = true := by
  refine ⟨by decide, by decide, by decide, by decide, by decide⟩

/-- C4 (amended): `FromFaceLevel(0,0)` is the root-marker pattern
`2 ^ 60` — the single highest bit of the path field — which is distinct
from `None()`, satisfies `is_valid`, has face 0 and level 0, and
round-trips through `child`/`parent` at every position; the full 64-bit
marker value is unambiguous, although bit 60 by itself also occurs in
valid depth-28 encodings. -/
theorem C4_root :
    S2CellIdV2.FromFaceLevel 0 0 = S2CellIdV2.rootMarker ∧
    S2CellIdV2.rootMarker =
      2 ^ (S2CellIdV2.kLevelBits + S2CellIdV2.kPathBits - 1) ∧
    S2CellIdV2.FromFaceLevel 0 0 ≠ 0 ∧
    S2CellIdV2.is_valid (S2CellIdV2.FromFaceLevel 0 0) = true ∧
    S2CellIdV2.face (S2CellIdV2.FromFaceLevel 0 0) = 0 ∧
    S2CellIdV2.level (S2CellIdV2.FromFaceLevel 0 0) = 0 ∧
    ∀ p : Fin 4,
      S2CellIdV2.parent (S2CellIdV2.child (S2CellIdV2.FromFaceLevel 0 0) p.val) =
        S2CellIdV2.FromFaceLevel 0 0 := by
  refine ⟨by decide, by decide, by decide, by decide, by decide, by decide,
    by decide⟩

/-- C8: the concrete string-codec scenarios on the Compact type. -/
theorem C8_string_scenarios :
    S2CellIdV2.ToString (S2CellIdV2.FromFace 0) = "0" ∧
    S2CellIdV2.ToString (S2CellIdV2.child (S2CellIdV2.FromFace 3) 2) = "3/2" ∧
    S2CellIdV2.level (S2CellIdV2.FromString "3/2") = 1 ∧
    S2CellIdV2.child_position (S2CellIdV2.FromString "3/2") = 2 ∧
    S2CellIdV2.FromString "6/0" = 0 ∧
    S2CellIdV2.is_valid (S2CellIdV2.FromString "6/0") = false ∧
    S2CellIdV2.FromString "0/4" = 0 ∧
    S2CellIdV2.is_valid (S2CellIdV2.FromString "0/4") = false := by
  refine ⟨by decide, by decide, by decide, by decide, by decide, by decide,
    by decide, by decide⟩

theorem char_digit_bounds {c : Char} (h : ¬(c < '0' ∨ '3' < c)) :
    48 ≤ c.toNat ∧ c.toNat ≤ 51 := by
  push_neg at h
  obtain ⟨h1, h2⟩ := h
  rw [Char.le_def, UInt32.le_def, BitVec.le_def] at h1 h2
  exact ⟨h1, h2⟩

theorem parsePath_lt : ∀ (cs : List Char) (acc : Nat) {p : Nat},
    S2CellIdV2.parsePath cs acc = some p → p < (acc + 1) * 4 ^ cs.length := by
  intro cs
  induction cs with
  | nil =>
    intro acc p h
    simp only [S2CellIdV2.parsePath, Option.some.injEq] at h
    subst h
    simp
  | cons c rest ih =>
    intro acc p h
    unfold S2CellIdV2.parsePath at h
    by_cases hc : c < '0' ∨ '3' < c
    · rw [if_pos hc] at h
      exact absurd h (by simp)
    · rw [if_neg hc] at h
      obtain ⟨hd1, hd2⟩ := char_digit_bounds hc
      have hd : c.toNat - 48 < 2 ^ 2 := by omega
      have hval : (acc <<< 2) ||| (c.toNat - 48) = acc * 4 + (c.toNat - 48) := by
        rw [shiftLeft_mul, Nat.mul_comm acc, ← Nat.mul_add_lt_is_or hd acc]
        ring
      rw [hval] at h
      have hrec := ih _ h
      calc p < (acc * 4 + (c.toNat - 48) + 1) * 4 ^ rest.length := hrec
        _ ≤ ((acc + 1) * 4) * 4 ^ rest.length :=
            Nat.mul_le_mul_right _ (by omega)
        _ = (acc + 1) * 4 ^ (c :: rest).length := by
            rw [List.length_cons, pow_succ]; ring

/-- `parent` maps every valid Compact id to 0 or to a valid id. -/
theorem parentV2_valid {n : Nat} (h64 : n < 2 ^ 64)
    (hv : S2CellIdV2.is_valid n = true) :
    S2CellIdV2.parent n = 0 ∨
      S2CellIdV2.is_valid (S2CellIdV2.parent n) = true := by
  rcases (is_validV2_iff h64).mp hv with hm | ⟨hn0, hf6, hcase⟩
  · left
    subst hm
    decide
  · rcases hcase with hl0 | ⟨hl1, hl28, hraw⟩
    · left
      have hlev : S2CellIdV2.level n = 0 := by
        unfold S2CellIdV2.level
        split_ifs
        · rfl
        · rw [levelMask_eq]; exact hl0
      unfold S2CellIdV2.parent
      rw [hv]
      simp only [Bool.not_true, Bool.false_eq_true, if_false]
      rw [if_pos hlev]
    · have hnm : n ≠ S2CellIdV2.rootMarker := by
        intro hc
        rw [hc, (by decide : S2CellIdV2.rootMarker &&& 31 = 0)] at hl1
        omega
      have hlev : S2CellIdV2.level n = n &&& 31 := by
        unfold S2CellIdV2.level
        rw [if_neg hnm, levelMask_eq]
      have hface : S2CellIdV2.face n = n >>> 61 := by
        unfold S2CellIdV2.face
        rw [if_neg hnm, faceShift_eq]
      have hraw56 : (n >>> 5) &&& (2 ^ 56 - 1) < 2 ^ 56 := by
        rw [land_pathMask_mod]
        exact Nat.mod_lt _ (by norm_num)
      have hpath : S2CellIdV2.path n = (n >>> 5) &&& (2 ^ 56 - 1) := by
        unfold S2CellIdV2.path
        rw [hlev, if_neg (by omega)]
        simp only [levelBits_eq, pathMask_eq, v2MaxLevel_eq]
        rw [if_pos (by omega : 0 < n &&& 31 ∧ n &&& 31 ≤ 28), shiftLeft_mul,
          one_mul, Nat.and_pow_two_sub_one_of_lt_two_pow
            (by rw [Nat.mul_comm (n &&& 31) 2]; exact hraw)]
      right
      have hq4 : ((n >>> 5) &&& (2 ^ 56 - 1)) / 4 < 2 ^ 56 := by omega
      have hlm : (n &&& 31) - 1 < 2 ^ 5 := by omega
      have hor : ((n >>> 61) <<< (64 - S2CellIdV2.kFaceBits)) |||
          ((((n >>> 5) &&& (2 ^ 56 - 1)) >>> 2) <<< S2CellIdV2.kLevelBits) |||
          ((n &&& 31) - 1) =
          (n >>> 61) * 2 ^ 61 + (((n >>> 5) &&& (2 ^ 56 - 1)) / 4) * 2 ^ 5 +
            ((n &&& 31) - 1) := by
        rw [faceShift_eq, levelBits_eq,
          show ((n >>> 5) &&& (2 ^ 56 - 1)) >>> 2 =
            ((n >>> 5) &&& (2 ^ 56 - 1)) / 4 from shiftRight_div _ 2]
        exact or3_add hq4 hlm
      unfold S2CellIdV2.parent
      rw [hv]
      simp only [Bool.not_true, Bool.false_eq_true, if_false]
      rw [if_neg (by rw [hlev]; omega)]
      simp only [hlev, hface, hpath, hor]
      set f := n >>> 61
      set l := n &&& 31
      set raw := (n >>> 5) &&& (2 ^ 56 - 1)
      by_cases hz : f * 2 ^ 61 + raw / 4 * 2 ^ 5 + (l - 1) = 0
      · rw [if_pos hz]
        decide
      · rw [if_neg hz]
        have hrdiv : raw / 4 < 4 ^ (l - 1) := by
          apply Nat.div_lt_of_lt_mul
          rw [← pow_succ', show l - 1 + 1 = l by omega, four_pow_eq]
          exact hraw
        by_cases hl1e : l = 1
        · have hr0 : raw / 4 = 0 := by
            rw [hl1e] at hrdiv
            simpa using hrdiv
          have hf0 : f ≠ 0 := by
            intro hc
            exact hz (by rw [hc, hr0, hl1e]; ring)
          have hmk : f * 2 ^ 61 + raw / 4 * 2 ^ 5 + (l - 1) =
              S2CellIdV2.enc f 0 0 := by
            unfold S2CellIdV2.enc
            rw [if_pos rfl, if_neg hf0, hr0, hl1e]
            ring
          rw [hmk]
          exact validV2_enc (by omega) (by norm_num) (by norm_num)
        · have hm1 : f * 2 ^ 61 + raw / 4 * 2 ^ 5 + (l - 1) =
              S2CellIdV2.enc f (l - 1) (raw / 4) := by
            rw [encV2_eq (by omega)]
          rw [hm1]
          exact validV2_enc (by omega) (by omega) hrdiv

/-- `child` maps every valid Compact id to 0 or to a valid id. -/
theorem childV2_valid {n : Nat} (p : Nat) (h64 : n < 2 ^ 64)
    (hv : S2CellIdV2.is_valid n = true) :
    S2CellIdV2.child n p = 0 ∨
      S2CellIdV2.is_valid (S2CellIdV2.child n p) = true := by
  by_cases hp : 4 ≤ p
  · left
    unfold S2CellIdV2.child
    rw [hv]
    simp only [Bool.not_true, Bool.false_eq_true, if_false]
    rw [if_pos hp]
  · by_cases hlev28 : S2CellIdV2.kMaxLevel ≤ S2CellIdV2.level n
    · left
      unfold S2CellIdV2.child
      rw [hv]
      simp only [Bool.not_true, Bool.false_eq_true, if_false]
      rw [if_neg hp, if_pos hlev28]
    · right
      rw [v2MaxLevel_eq] at hlev28
      rcases (is_validV2_iff h64).mp hv with hm | ⟨hn0, hf6, hcase⟩
      · subst hm
        interval_cases p <;> decide
      · rcases hcase with hl0 | ⟨hl1, hl28, hraw⟩
        · by_cases hmm : n = S2CellIdV2.rootMarker
          · subst hmm
            interval_cases p <;> decide
          · have hlev : S2CellIdV2.level n = 0 := by
              unfold S2CellIdV2.level
              rw [if_neg hmm, levelMask_eq]
              exact hl0
            have hface : S2CellIdV2.face n = n >>> 61 := by
              unfold S2CellIdV2.face
              rw [if_neg hmm, faceShift_eq]
            have hpath : S2CellIdV2.path n = 0 := by
              unfold S2CellIdV2.path
              rw [hlev]
              simp
            have hor : ((n >>> 61) <<< (64 - S2CellIdV2.kFaceBits)) |||
                (((0 <<< 2) ||| p) <<< S2CellIdV2.kLevelBits) ||| (0 + 1) =
                (n >>> 61) * 2 ^ 61 + p * 2 ^ 5 + 1 := by
              rw [faceShift_eq, levelBits_eq, Nat.zero_shiftLeft, Nat.zero_or]
              exact or3_add (by omega) (by omega)
            unfold S2CellIdV2.child
            rw [hv]
            simp only [Bool.not_true, Bool.false_eq_true, if_false]
            rw [if_neg hp, if_neg (by rw [hlev, v2MaxLevel_eq]; omega)]
            simp only [hlev, hface, hpath, hor]
            rw [← encV2_eq (by norm_num)]
            exact validV2_enc (by omega) (by norm_num) (by omega)
        · have hnm : n ≠ S2CellIdV2.rootMarker := by
            intro hc
            rw [hc, (by decide : S2CellIdV2.rootMarker &&& 31 = 0)] at hl1
            omega
          have hlev : S2CellIdV2.level n = n &&& 31 := by
            unfold S2CellIdV2.level
            rw [if_neg hnm, levelMask_eq]
          have hface : S2CellIdV2.face n = n >>> 61 := by
            unfold S2CellIdV2.face
            rw [if_neg hnm, faceShift_eq]
          have hraw56 : (n >>> 5) &&& (2 ^ 56 - 1) < 2 ^ 56 := by
            rw [land_pathMask_mod]
            exact Nat.mod_lt _ (by norm_num)
          have hpath : S2CellIdV2.path n = (n >>> 5) &&& (2 ^ 56 - 1) := by
            unfold S2CellIdV2.path
            rw [hlev, if_neg (by omega)]
            simp only [levelBits_eq, pathMask_eq, v2MaxLevel_eq]
            rw [if_pos (by omega : 0 < n &&& 31 ∧ n &&& 31 ≤ 28), shiftLeft_mul,
              one_mul, Nat.and_pow_two_sub_one_of_lt_two_pow
                (by rw [Nat.mul_comm (n &&& 31) 2]; exact hraw)]
          rw [hlev] at hlev28
          have hcp : (((n >>> 5) &&& (2 ^ 56 - 1)) <<< 2) ||| p =
              4 * ((n >>> 5) &&& (2 ^ 56 - 1)) + p := by
            rw [shiftLeft_mul, Nat.mul_comm ((n >>> 5) &&& (2 ^ 56 - 1)),
              ← Nat.mul_add_lt_is_or (show p < 2 ^ 2 by omega)]
          have hcpb : 4 * ((n >>> 5) &&& (2 ^ 56 - 1)) + p <
              4 ^ ((n &&& 31) + 1) := by
            have h4 : (4 : Nat) ^ ((n &&& 31) + 1) =
                4 * 2 ^ (2 * (n &&& 31)) := by
              rw [four_pow_eq, show 2 * ((n &&& 31) + 1) = 2 * (n &&& 31) + 2
                by ring, pow_add]
              ring
            rw [h4]
            omega
          have hor : ((n >>> 61) <<< (64 - S2CellIdV2.kFaceBits)) |||
              (((((n >>> 5) &&& (2 ^ 56 - 1)) <<< 2) ||| p) <<<
                S2CellIdV2.kLevelBits) ||| ((n &&& 31) + 1) =
              (n >>> 61) * 2 ^ 61 +
                (4 * ((n >>> 5) &&& (2 ^ 56 - 1)) + p) * 2 ^ 5 +
                ((n &&& 31) + 1) := by
            rw [faceShift_eq, levelBits_eq, hcp]
            refine or3_add ?_ (by omega)
            calc 4 * ((n >>> 5) &&& (2 ^ 56 - 1)) + p
                < 4 ^ ((n &&& 31) + 1) := hcpb
              _ ≤ 4 ^ 28 := Nat.pow_le_pow_right (by norm_num) (by omega)
              _ ≤ 2 ^ 56 := by norm_num
          unfold S2CellIdV2.child
          rw [hv]
          simp only [Bool.not_true, Bool.false_eq_true, if_false]
          rw [if_neg hp, if_neg (by rw [hlev, v2MaxLevel_eq]; omega)]
          simp only [hlev, hface, hpath, hor]
          rw [← encV2_eq (by omega)]
          exact validV2_enc (by omega) (by omega) hcpb


/-- C9: every Compact id produced by `ConvertFromOldFormat`,
`FromFaceLevel`, `FromString`, `parent` or `child` is either the invalid
value 0 (`None()`) or satisfies `is_valid`. -/
theorem C9_constructed_valid (old f lv n p : Nat) (s : String)
    (h64 : old < 2 ^ 64) (hn : n < 2 ^ 64) :
    (S2CellIdV2.ConvertFromOldFormat old = 0 ∨
      S2CellIdV2.is_valid (S2CellIdV2.ConvertFromOldFormat old) = true) ∧
    (S2CellIdV2.FromFaceLevel f lv = 0 ∨
      S2CellIdV2.is_valid (S2CellIdV2.FromFaceLevel f lv) = true) ∧
    (S2CellIdV2.FromString s = 0 ∨
      S2CellIdV2.is_valid (S2CellIdV2.FromString s) = true) ∧
    (S2CellIdV2.parent n = 0 ∨
      S2CellIdV2.is_valid (S2CellIdV2.parent n) = true) ∧
    (S2CellIdV2.child n p = 0 ∨
      S2CellIdV2.is_valid (S2CellIdV2.child n p) = true) := by
  have hffl : ∀ f2 lv2 : Nat, S2CellIdV2.FromFaceLevel f2 lv2 = 0 ∨
      S2CellIdV2.is_valid (S2CellIdV2.FromFaceLevel f2 lv2) = true := by
    intro f2 lv2
    by_cases hfb : f2 ≤ 5 ∧ lv2 ≤ 28
    · right
      rw [FFL_enc hfb.1 hfb.2]
      exact validV2_enc (by omega) hfb.2 (Nat.pos_pow_of_pos _ (by norm_num))
    · left
      unfold S2CellIdV2.FromFaceLevel
      rw [v2MaxLevel_eq, if_pos (by omega)]
  refine ⟨?_, hffl f lv, ?_, ?_, ?_⟩
  · by_cases hov : s2v1.is_valid old = true
    · obtain ⟨g, k, a, hg, hk, ha, rfl⟩ := valid_enc_exists h64 hov
      by_cases hk28 : k ≤ 28
      · right
        rw [CFOF_enc hg hk28 ha]
        exact validV2_enc hg hk28 ha
      · left
        exact CFOF_deep hg hk (by omega) ha
    · left
      have hov2 : s2v1.is_valid old = false := by
        revert hov
        cases s2v1.is_valid old <;> simp
      unfold S2CellIdV2.ConvertFromOldFormat
      rw [hov2]
      simp
  · unfold S2CellIdV2.FromString S2CellIdV2.fromStringList
    by_cases hemp : s.toList.isEmpty
    · rw [if_pos hemp]
      exact Or.inl rfl
    · rw [if_neg hemp]
      rcases hsl : s.toList.findIdx? (· = '/') with _ | i
      · simp only [hsl]
        rcases hst : S2CellIdV2.stoi s.toList with _ | fi
        · simp only [hst]
          exact Or.inl trivial
        · simp only [hst]
          by_cases hfi : fi < 0 ∨ 5 < fi
          · rw [if_pos hfi]
            exact Or.inl rfl
          · rw [if_neg hfi]
            exact hffl fi.toNat 0
      · simp only [hsl]
        rcases hst : S2CellIdV2.stoi (s.toList.take i) with _ | fi
        · simp only [hst]
          exact Or.inl trivial
        · simp only [hst]
          by_cases hfi : fi < 0 ∨ 5 < fi
          · rw [if_pos hfi]
            exact Or.inl rfl
          · rw [if_neg hfi]
            by_cases hlv0 : (s.toList.drop (i + 1)).length = 0
            · rw [if_pos hlv0]
              exact hffl fi.toNat 0
            · rw [if_neg hlv0]
              by_cases hlv28 : S2CellIdV2.kMaxLevel <
                  (s.toList.drop (i + 1)).length
              · rw [if_pos hlv28]
                exact Or.inl rfl
              · rw [if_neg hlv28]
                rcases hpp : S2CellIdV2.parsePath (s.toList.drop (i + 1)) 0
                  with _ | pv
                · simp only [hpp]
                  exact Or.inl trivial
                · simp only [hpp]
                  right
                  rw [v2MaxLevel_eq] at hlv28
                  have hplt : pv < 4 ^ (s.toList.drop (i + 1)).length := by
                    have h := parsePath_lt _ 0 hpp
                    simpa using h
                  have hp56 : pv < 2 ^ 56 :=
                    path_lt_56 (by omega) hplt
                  rw [faceShift_eq, levelBits_eq, or3_add hp56 (by omega),
                    ← encV2_eq (by omega)]
                  exact validV2_enc (by omega) (by omega) hplt
  · by_cases hnv : S2CellIdV2.is_valid n = true
    · exact parentV2_valid hn hnv
    · left
      have hnf : S2CellIdV2.is_valid n = false := by
        revert hnv
        cases S2CellIdV2.is_valid n <;> simp
      unfold S2CellIdV2.parent
      rw [hnf]
      simp
  · by_cases hnv : S2CellIdV2.is_valid n = true
    · exact childV2_valid p hn hnv
    · left
      have hnf : S2CellIdV2.is_valid n = false := by
        revert hnv
        cases S2CellIdV2.is_valid n <;> simp
      unfold S2CellIdV2.child
      rw [hnf]
      simp

theorem C9_witness :
    S2CellIdV2.ConvertFromOldFormat 4 = 0 ∨
      S2CellIdV2.is_valid (S2CellIdV2.ConvertFromOldFormat 4) = true :=
  (C9_constructed_valid 4 0 0 (2 ^ 60) 1 "0/123" (by norm_num) (by norm_num)).1

theorem toStringAux_length (p : Nat) : ∀ i, (S2CellIdV2.toStringAux p i).length = i := by
  intro i
  induction i with
  | zero => rfl
  | succ i ih =>
    show (S2CellIdV2.toStringAux p (i + 1)).length = i + 1
    unfold S2CellIdV2.toStringAux
    rw [List.length_cons, ih]

theorem or_low2 (acc dd : Nat) (h : dd < 4) : (acc <<< 2) ||| dd = acc * 4 + dd := by
  rw [shiftLeft_mul, Nat.mul_comm acc, ← Nat.mul_add_lt_is_or (show dd < 2 ^ 2 by omega) acc]
  ring

theorem parsePath_toStringAux (p : Nat) : ∀ (k acc : Nat),
    S2CellIdV2.parsePath (S2CellIdV2.toStringAux p k) acc =
      some (acc * 4 ^ k + p % 4 ^ k) := by
  intro k
  induction k with
  | zero =>
    intro acc
    simp [S2CellIdV2.toStringAux, S2CellIdV2.parsePath, Nat.mod_one]
  | succ k ih =>
    intro acc
    have hd : (p >>> (2 * k)) &&& 3 = p / 4 ^ k % 4 := by
      rw [shiftRight_div, show (3 : Nat) = 2 ^ 2 - 1 from rfl,
        Nat.and_pow_two_sub_one_eq_mod, four_pow_eq]
    have hcons : S2CellIdV2.toStringAux p (k + 1) =
        Char.ofNat (48 + p / 4 ^ k % 4) :: S2CellIdV2.toStringAux p k := by
      rw [show S2CellIdV2.toStringAux p (k + 1) =
        Char.ofNat (48 + ((p >>> (2 * k)) &&& 3)) :: S2CellIdV2.toStringAux p k
        from rfl, hd]
    rw [hcons]
    have hmod : p % 4 ^ (k + 1) = p % 4 ^ k + 4 ^ k * (p / 4 ^ k % 4) := by
      rw [pow_succ, Nat.mod_mul]
    have hstep : ∀ dd : Nat, p / 4 ^ k % 4 = dd → dd < 4 →
        ¬(Char.ofNat (48 + dd) < '0' ∨ '3' < Char.ofNat (48 + dd)) →
        (Char.ofNat (48 + dd)).toNat - 48 = dd →
        S2CellIdV2.parsePath
          (Char.ofNat (48 + dd) :: S2CellIdV2.toStringAux p k) acc =
          some (acc * 4 ^ (k + 1) + p % 4 ^ (k + 1)) := by
      intro dd hdd hdd4 hguard htn
      unfold S2CellIdV2.parsePath
      rw [if_neg hguard, htn, or_low2 acc dd hdd4, ih]
      congr 1
      rw [hmod, hdd, pow_succ]
      ring
    have hd4 : p / 4 ^ k % 4 = 0 ∨ p / 4 ^ k % 4 = 1 ∨ p / 4 ^ k % 4 = 2 ∨
        p / 4 ^ k % 4 = 3 := by omega
    rcases hd4 with h0 | h1 | h2 | h3
    · rw [h0]; exact hstep 0 h0 (by norm_num) (by decide) (by decide)
    · rw [h1]; exact hstep 1 h1 (by norm_num) (by decide) (by decide)
    · rw [h2]; exact hstep 2 h2 (by norm_num) (by decide) (by decide)
    · rw [h3]; exact hstep 3 h3 (by norm_num) (by decide) (by decide)

theorem fromString_mk {fc : Char} {fi : Int} {k a : Nat}
    (hfc : (fc = '/') = False)
    (hst : S2CellIdV2.stoi [fc] = some fi)
    (hfi : ¬(fi < 0 ∨ 5 < fi))
    (hk1 : 1 ≤ k) (hk : k ≤ 28) (ha : a < 4 ^ k) :
    S2CellIdV2.fromStringList (fc :: '/' :: S2CellIdV2.toStringAux a k) =
      S2CellIdV2.enc fi.toNat k a := by
  unfold S2CellIdV2.fromStringList
  rw [if_neg (by simp)]
  have hidx : (fc :: '/' :: S2CellIdV2.toStringAux a k).findIdx? (· = '/') =
      some 1 := by
    simp [List.findIdx?_cons, hfc]
  simp only [hidx]
  rw [show (fc :: '/' :: S2CellIdV2.toStringAux a k).take 1 = [fc] from rfl]
  simp only [hst]
  rw [if_neg hfi]
  rw [show (fc :: '/' :: S2CellIdV2.toStringAux a k).drop (1 + 1) =
    S2CellIdV2.toStringAux a k from rfl]
  rw [toStringAux_length]
  rw [if_neg (by omega), v2MaxLevel_eq, if_neg (by omega),
    parsePath_toStringAux]
  simp only [Nat.zero_mul, Nat.zero_add, Nat.mod_eq_of_lt ha]
  rw [faceShift_eq, levelBits_eq, or3_add (path_lt_56 hk ha) (by omega),
    ← encV2_eq hk1]

theorem roundtrip_pos {f k a : Nat} (hf : f < 6) (hk1 : 1 ≤ k) (hk : k ≤ 28)
    (ha : a < 4 ^ k) :
    S2CellIdV2.FromString
      (toString f ++ "/" ++ String.mk (S2CellIdV2.toStringAux a k)) =
      S2CellIdV2.enc f k a := by
  interval_cases f
  · rw [show toString (0 : Nat) ++ "/" ++ String.mk (S2CellIdV2.toStringAux a k)
      = String.mk ('0' :: '/' :: S2CellIdV2.toStringAux a k) from rfl]
    exact @fromString_mk '0' 0 k a (by decide) (by decide) (by decide) hk1 hk ha
  · rw [show toString (1 : Nat) ++ "/" ++ String.mk (S2CellIdV2.toStringAux a k)
      = String.mk ('1' :: '/' :: S2CellIdV2.toStringAux a k) from rfl]
    exact @fromString_mk '1' 1 k a (by decide) (by decide) (by decide) hk1 hk ha
  · rw [show toString (2 : Nat) ++ "/" ++ String.mk (S2CellIdV2.toStringAux a k)
      = String.mk ('2' :: '/' :: S2CellIdV2.toStringAux a k) from rfl]
    exact @fromString_mk '2' 2 k a (by decide) (by decide) (by decide) hk1 hk ha
  · rw [show toString (3 : Nat) ++ "/" ++ String.mk (S2CellIdV2.toStringAux a k)
      = String.mk ('3' :: '/' :: S2CellIdV2.toStringAux a k) from rfl]
    exact @fromString_mk '3' 3 k a (by decide) (by decide) (by decide) hk1 hk ha
  · rw [show toString (4 : Nat) ++ "/" ++ String.mk (S2CellIdV2.toStringAux a k)
      = String.mk ('4' :: '/' :: S2CellIdV2.toStringAux a k) from rfl]
    exact @fromString_mk '4' 4 k a (by decide) (by decide) (by decide) hk1 hk ha
  · rw [show toString (5 : Nat) ++ "/" ++ String.mk (S2CellIdV2.toStringAux a k)
      = String.mk ('5' :: '/' :: S2CellIdV2.toStringAux a k) from rfl]
    exact @fromString_mk '5' 5 k a (by decide) (by decide) (by decide) hk1 hk ha

/-- C7 counterexample: the id 32 (level-0, face-0, with a stray path bit)
satisfies `is_valid`, prints as `"0"`, but parses back to the canonical
root marker `2 ^ 60`, not to 32 — so `FromString (ToString x) = x` fails
for this valid Compact identifier. -/
theorem C7_counterexample :
    S2CellIdV2.is_valid 32 = true ∧
    S2CellIdV2.ToString 32 = "0" ∧
    S2CellIdV2.FromString (S2CellIdV2.ToString 32) = 2 ^ 60 ∧
    (2 ^ 60 : Nat) ≠ 32 := by
  refine ⟨by decide, by decide, by decide, by decide⟩

/-- C7 (amended): for every valid Compact id in canonical form (level-0
cells carry no stray path bits: the face-0 root is the marker, other
faces have a zero path field), `FromString (ToString x) = x`; every
invalid id renders as the literal `"INVALID"`. -/
theorem C7_round_trip (f k a n : Nat) (hf : f < 6) (hk : k ≤ 28)
    (ha : a < 4 ^ k) (hnv : S2CellIdV2.is_valid n = false) :
    S2CellIdV2.FromString (S2CellIdV2.ToString (S2CellIdV2.enc f k a)) =
      S2CellIdV2.enc f k a ∧
    S2CellIdV2.ToString n = "INVALID" := by
  constructor
  · by_cases hk0 : k = 0
    · subst hk0
      have ha0 : a = 0 := by omega
      subst ha0
      interval_cases f <;> decide
    · have hts : S2CellIdV2.ToString (S2CellIdV2.enc f k a) =
          toString f ++ "/" ++ String.mk (S2CellIdV2.toStringAux a k) := by
        unfold S2CellIdV2.ToString
        rw [validV2_enc hf hk ha]
        simp only [Bool.not_true, Bool.false_eq_true, if_false]
        rw [faceV2_enc hf hk ha, levelV2_enc hf hk ha,
          pathV2_enc hf (by omega) hk ha, if_neg hk0]
      rw [hts]
      exact roundtrip_pos hf (by omega) hk ha
  · unfold S2CellIdV2.ToString
    rw [hnv]
    rfl

/-- C7 witness: the cell `2/213` round trips, and the invalid value 29
renders as INVALID. -/
theorem C7_witness :
    S2CellIdV2.FromString (S2CellIdV2.ToString (S2CellIdV2.enc 2 3 39)) =
      S2CellIdV2.enc 2 3 39 ∧
    S2CellIdV2.ToString 29 = "INVALID" :=
  C7_round_trip 2 3 39 29 (by norm_num) (by norm_num) (by norm_num) (by decide)
